import Mathlib

/-!
Verification of the matcha per-connection pipeline core against its
natural-language specification.  The Go sources are shallowly embedded:
byte slices become `List Nat` (each entry a byte value), machine integers
become `Nat`/`Int` with explicit `% 2 ^ 32` where unsigned overflow
matters, mutation becomes explicit state passing, and fallible paths
return sum types.
-/

namespace Matcha

/-- Model of the Go builtin `copy(dst, src)`: copies
`min (len dst) (len src)` elements of `src` over the front of `dst`,
keeping the rest of `dst`.  Returns the updated destination. -/
def goCopy (dst src : List Nat) : List Nat :=
  let n := min dst.length src.length
  src.take n ++ dst.drop n

/-- Model of `copy(dst[i:], src)`: writes `src` over `dst` starting at
position `i` (in-place slice update, never growing `dst`). -/
def goCopyAt (dst : List Nat) (i : Nat) (src : List Nat) : List Nat :=
  dst.take i ++ goCopy (dst.drop i) src

/-- State of `buffer.elasticUnsafeByteBuf` (double-indexed elastic byte
buffer).  In Go, `buffer` is a byte slice and the three indexes are
non-negative `int` values in every reachable state modelled here. -/
structure ByteBuf where
  buffer : List Nat
  readIndex : Nat
  writeIndex : Nat
  capacity : Nat
deriving Repr, DecidableEq

/-- Model of `NewElasticUnsafeByteBuf`: a zeroed buffer of `initSize`
bytes (negative sizes are clamped to 0). -/
def newElasticUnsafeByteBuf (initSize : Int) : ByteBuf :=
  let s := (if initSize < 0 then 0 else initSize).toNat
  { buffer := List.replicate s 0, readIndex := 0, writeIndex := 0, capacity := s }

/-- Model of `calcReadableBytes`: `writeIndex - readIndex`. -/
def calcReadableBytes (pb : ByteBuf) : Nat :=
  pb.writeIndex - pb.readIndex

/-- Model of `ReadableBytes`. -/
def ReadableBytes (pb : ByteBuf) : Nat :=
  calcReadableBytes pb

/-- Model of `calcWritableBytes`: `capacity - writeIndex`. -/
def calcWritableBytes (pb : ByteBuf) : Nat :=
  pb.capacity - pb.writeIndex

/-- Model of `WritableBytes`. -/
def WritableBytes (pb : ByteBuf) : Nat :=
  calcWritableBytes pb

/-- Growth policy of `WriteBytes`: the source computes
`int(float32(n) * 1.2)`.  We model the constant 1.2 exactly as the
rational 6/5 with truncating division; for every size reached by a
concrete evaluation in this development (below 2 ^ 23 / 1.2) the float32
computation and `n * 6 / 5` truncate to the same integer, and the
proofs only use `growSize n ≥ n`. -/
def growSize (n : Nat) : Nat :=
  n * 6 / 5

/-- Model of `elasticUnsafeByteBuf.ReadBytes`.  Note that the source
allocates `make([]byte, length)` and copies at most the readable bytes
into it, so the returned slice always has `length` entries (zero padded)
whenever `length ≥ 0`.  The new read index is
`min (readIndex + length) writeIndex`. -/
def ReadBytes (pb : ByteBuf) (length : Int) : List Nat × ByteBuf :=
  if length < 0 then ([], pb)
  else
    let len := length.toNat
    let result := List.replicate len 0
    let targetReadIndex :=
      if pb.readIndex + len ≤ pb.writeIndex then pb.readIndex + len else pb.writeIndex
    let result :=
      goCopy result ((pb.buffer.drop pb.readIndex).take (targetReadIndex - pb.readIndex))
    (result, { pb with readIndex := targetReadIndex })

/-- Allocation branch of `elasticUnsafeByteBuf.WriteBytes`: allocate a
slice of `growSize (writeSize + writeIndex)` bytes, copy the old buffer
into it and record the new capacity. -/
def growBuf (pb : ByteBuf) (writeSize : Nat) : ByteBuf :=
  { pb with
      buffer := goCopy (List.replicate (growSize (writeSize + pb.writeIndex)) 0) pb.buffer
      capacity := growSize (writeSize + pb.writeIndex) }

/-- Merge step of `elasticUnsafeByteBuf.WriteBytes`:
`copy(pb.buffer[pb.writeIndex:], bytes)` followed by
`pb.writeIndex += writeSize`.  The copy never writes past the end of the
current `buffer` slice (Go `copy` truncates). -/
def writeFinish (pb : ByteBuf) (bytes : List Nat) : ByteBuf :=
  { pb with
      buffer := goCopyAt pb.buffer pb.writeIndex bytes
      writeIndex := pb.writeIndex + bytes.length }

/-- Model of `elasticUnsafeByteBuf.WriteBytes`: return unchanged on an
empty write, grow if the writable region is too small, then copy the
bytes in at `writeIndex` and advance `writeIndex`. -/
def WriteBytes (pb : ByteBuf) (bytes : List Nat) : ByteBuf :=
  if bytes.length = 0 then pb
  else
    writeFinish (if calcWritableBytes pb < bytes.length then growBuf pb bytes.length else pb)
      bytes

/-- Model of the `io.Writer` method `Write`: delegates to `WriteBytes`
and reports `len p` bytes written with no error. -/
def Write (pb : ByteBuf) (p : List Nat) : ByteBuf × Nat :=
  (WriteBytes pb p, p.length)

/-- Model of the `io.Reader` method `Read` into a slice of length
`pLen`: reads `min pLen (readable)` bytes via `ReadBytes`; returns the
bytes read, the new state, and whether `io.EOF` was reported. -/
def bufRead (pb : ByteBuf) (pLen : Nat) : List Nat × ByteBuf × Bool :=
  let readSize := if pLen < calcReadableBytes pb then pLen else calcReadableBytes pb
  if readSize = 0 then ([], pb, true)
  else
    let rr := ReadBytes pb (readSize : Int)
    (rr.1, rr.2, false)

/-- Model of `elasticUnsafeByteBuf.Release`: copy the readable region to
the front of a fresh slice of `capacity - readIndex` bytes and shift the
indexes.  The source does not update the `capacity` field here, so after
`Release` the recorded capacity can exceed the actual slice length. -/
def Release (pb : ByteBuf) : ByteBuf :=
  let newBuffer :=
    goCopy (List.replicate (pb.capacity - pb.readIndex) 0)
      ((pb.buffer.drop pb.readIndex).take (pb.writeIndex - pb.readIndex))
  { pb with
      buffer := newBuffer
      writeIndex := pb.writeIndex - pb.readIndex
      readIndex := 0 }

/-- Model of `Reset`: both indexes back to 0. -/
def bufReset (pb : ByteBuf) : ByteBuf :=
  { pb with writeIndex := 0, readIndex := 0 }

/-- Well-formedness of a buffer state: the indexes are ordered and the
slice really has `capacity` bytes.  Fresh buffers satisfy it, and every
operation except `Release` preserves it. -/
def bufInv (pb : ByteBuf) : Prop :=
  pb.readIndex ≤ pb.writeIndex ∧ pb.writeIndex ≤ pb.buffer.length ∧
    pb.buffer.length = pb.capacity

instance (pb : ByteBuf) : Decidable (bufInv pb) := by
  unfold bufInv; infer_instance

/-- The readable region `[readIndex, writeIndex)` of a buffer, as a
list of bytes (the abstraction used by the stream proofs). -/
def unread (pb : ByteBuf) : List Nat :=
  (pb.buffer.drop pb.readIndex).take (pb.writeIndex - pb.readIndex)

theorem goCopy_length (dst src : List Nat) : (goCopy dst src).length = dst.length := by
  simp [goCopy]

theorem goCopy_of_le (dst src : List Nat) (h : src.length ≤ dst.length) :
    goCopy dst src = src ++ dst.drop src.length := by
  simp [goCopy, min_eq_right h]

theorem bufInv_new (initSize : Int) : bufInv (newElasticUnsafeByteBuf initSize) := by
  simp [bufInv, newElasticUnsafeByteBuf]

theorem unread_new (initSize : Int) : unread (newElasticUnsafeByteBuf initSize) = [] := by
  simp [unread, newElasticUnsafeByteBuf]

theorem unread_length (pb : ByteBuf) (h : bufInv pb) :
    (unread pb).length = ReadableBytes pb := by
  obtain ⟨h1, h2, h3⟩ := h
  simp [unread, ReadableBytes, calcReadableBytes]
  omega

theorem unread_take (pb : ByteBuf) (k : Nat) (hk : k ≤ calcReadableBytes pb) :
    (unread pb).take k = (pb.buffer.drop pb.readIndex).take k := by
  simp only [calcReadableBytes] at hk
  rw [unread, List.take_take, min_eq_left (by omega)]

theorem readBytes_spec (pb : ByteBuf) (k : Nat) (hInv : bufInv pb)
    (hk : k ≤ calcReadableBytes pb) :
    ReadBytes pb (k : Int) =
      ((unread pb).take k, { pb with readIndex := pb.readIndex + k }) := by
  obtain ⟨h1, h2, h3⟩ := hInv
  simp only [calcReadableBytes] at hk
  have hneg : ¬((k : Int) < 0) := by omega
  have htgt : pb.readIndex + k ≤ pb.writeIndex := by omega
  have hsub : pb.readIndex + k - pb.readIndex = k := by omega
  have hsrc : ((pb.buffer.drop pb.readIndex).take k).length = k := by
    simp [List.length_take, List.length_drop]; omega
  simp only [ReadBytes, if_neg hneg, Int.toNat_natCast, if_pos htgt, hsub]
  rw [goCopy_of_le _ _ (by simp [hsrc]), hsrc]
  rw [unread_take pb k (by simp [calcReadableBytes]; omega)]
  simp

theorem readBytes_bufInv (pb : ByteBuf) (k : Nat) (hInv : bufInv pb)
    (hk : k ≤ calcReadableBytes pb) :
    bufInv (ReadBytes pb (k : Int)).2 ∧
      unread (ReadBytes pb (k : Int)).2 = (unread pb).drop k := by
  obtain ⟨h1, h2, h3⟩ := hInv
  simp only [calcReadableBytes] at hk
  rw [readBytes_spec pb k ⟨h1, h2, h3⟩ (by simp [calcReadableBytes]; omega)]
  refine ⟨⟨by simp; omega, by simp; omega, by simp; omega⟩, ?_⟩
  simp only [unread]
  rw [List.drop_take, ← List.drop_drop]
  congr 1
  omega

theorem goCopyAt_spec (buf : List Nat) (w : Nat) (bytes : List Nat)
    (hw : w + bytes.length ≤ buf.length) :
    goCopyAt buf w bytes = buf.take w ++ bytes ++ buf.drop (w + bytes.length) := by
  have hlen : bytes.length ≤ (buf.drop w).length := by simp; omega
  rw [goCopyAt, goCopy_of_le _ _ hlen, List.drop_drop]
  simp [List.append_assoc]

theorem writeBytes_indexes (pb : ByteBuf) (bytes : List Nat) :
    (WriteBytes pb bytes).writeIndex = pb.writeIndex + bytes.length ∧
      (WriteBytes pb bytes).readIndex = pb.readIndex := by
  by_cases h : bytes.length = 0
  · simp [WriteBytes, h]
  · simp only [WriteBytes, if_neg h, writeFinish]
    split <;> simp [growBuf]

theorem take_middle (l1 bytes rest : List Nat) (n : Nat)
    (hn : n = l1.length + bytes.length) :
    (l1 ++ (bytes ++ rest)).take n = l1 ++ bytes := by
  subst hn
  rw [List.take_append_eq_append_take, List.take_of_length_le (Nat.le_add_right _ _),
    Nat.add_sub_cancel_left, List.take_left]

theorem goCopyAt_length (dst : List Nat) (i : Nat) (src : List Nat) (hi : i ≤ dst.length) :
    (goCopyAt dst i src).length = dst.length := by
  simp [goCopyAt, goCopy_length]
  omega

theorem writeFinish_spec (pb : ByteBuf) (bytes : List Nat)
    (hr : pb.readIndex ≤ pb.writeIndex)
    (hroom : pb.writeIndex + bytes.length ≤ pb.buffer.length)
    (hcap : pb.buffer.length = pb.capacity) :
    bufInv (writeFinish pb bytes) ∧
      unread (writeFinish pb bytes) = unread pb ++ bytes := by
  have hspec := goCopyAt_spec pb.buffer pb.writeIndex bytes hroom
  have hfinlen : (goCopyAt pb.buffer pb.writeIndex bytes).length = pb.buffer.length :=
    goCopyAt_length pb.buffer pb.writeIndex bytes (by omega)
  constructor
  · exact ⟨by simp [writeFinish]; omega, by simp [writeFinish, hfinlen]; omega,
      by simp [writeFinish, hfinlen, hcap]⟩
  · simp only [unread, writeFinish, hspec]
    have hwlen : (pb.buffer.take pb.writeIndex).length = pb.writeIndex := by
      simp; omega
    rw [List.append_assoc, List.drop_append_of_le_length (le_of_le_of_eq hr hwlen.symm)]
    rw [take_middle _ _ _ _ (by simp; omega)]
    congr 1
    rw [List.drop_take]

theorem growBuf_props (pb : ByteBuf) (writeSize : Nat) (hInv : bufInv pb)
    (hgrow : calcWritableBytes pb < writeSize) :
    (growBuf pb writeSize).buffer = pb.buffer ++
        List.replicate (growSize (writeSize + pb.writeIndex) - pb.buffer.length) 0 ∧
      (growBuf pb writeSize).buffer.length = growSize (writeSize + pb.writeIndex) ∧
      (growBuf pb writeSize).capacity = growSize (writeSize + pb.writeIndex) ∧
      (growBuf pb writeSize).readIndex = pb.readIndex ∧
      (growBuf pb writeSize).writeIndex = pb.writeIndex := by
  obtain ⟨h1, h2, h3⟩ := hInv
  simp only [calcWritableBytes] at hgrow
  have hge : writeSize + pb.writeIndex ≤ growSize (writeSize + pb.writeIndex) := by
    simp only [growSize]
    omega
  have hbuflen : pb.buffer.length ≤ growSize (writeSize + pb.writeIndex) := by omega
  refine ⟨?_, by simp [growBuf, goCopy_length], by simp [growBuf], by simp [growBuf],
    by simp [growBuf]⟩
  simp only [growBuf]
  rw [goCopy_of_le _ _ (by simp [hbuflen]), List.drop_replicate]

theorem writeBytes_spec (pb : ByteBuf) (bytes : List Nat) (hInv : bufInv pb) :
    bufInv (WriteBytes pb bytes) ∧
      unread (WriteBytes pb bytes) = unread pb ++ bytes := by
  obtain ⟨h1, h2, h3⟩ := hInv
  by_cases h0 : bytes.length = 0
  · rw [List.length_eq_zero] at h0
    subst h0
    have hw : WriteBytes pb [] = pb := by simp [WriteBytes]
    rw [hw]
    exact ⟨⟨h1, h2, h3⟩, by simp⟩
  simp only [WriteBytes, if_neg h0]
  split
  · rename_i hgrow
    obtain ⟨hbuf, hlen, hcap, hri, hwi⟩ := growBuf_props pb bytes.length ⟨h1, h2, h3⟩ hgrow
    have hge : bytes.length + pb.writeIndex ≤ growSize (bytes.length + pb.writeIndex) := by
      simp only [growSize]
      omega
    have hfin := writeFinish_spec (growBuf pb bytes.length) bytes
      (by rw [hri, hwi]; exact h1) (by rw [hwi, hlen]; omega) (by rw [hlen, hcap])
    have huneq : unread (growBuf pb bytes.length) = unread pb := by
      simp only [unread, hbuf, hri, hwi]
      rw [List.drop_append_of_le_length (by omega), List.take_append_eq_append_take]
      have : pb.writeIndex - pb.readIndex - (pb.buffer.drop pb.readIndex).length = 0 := by
        simp
        omega
      rw [this]
      simp
    rw [huneq] at hfin
    exact hfin
  · rename_i hgrow
    simp only [calcWritableBytes, not_lt] at hgrow
    exact writeFinish_spec pb bytes h1 (by omega) h3

theorem readBytes_amended_spec (pb : ByteBuf) (n : Int) (hInv : bufInv pb) :
    (ReadBytes pb n).1 =
        (unread pb).take (min n.toNat (ReadableBytes pb)) ++
          List.replicate (n.toNat - min n.toNat (ReadableBytes pb)) 0 ∧
      (ReadBytes pb n).2 =
        { pb with readIndex := pb.readIndex + min n.toNat (ReadableBytes pb) } ∧
      (ReadBytes pb n).1.length = n.toNat := by
  obtain ⟨h1, h2, h3⟩ := hInv
  have hulen : (unread pb).length = pb.writeIndex - pb.readIndex := by
    simp [unread]
    omega
  by_cases hneg : n < 0
  · have hz : n.toNat = 0 := Int.toNat_of_nonpos (le_of_lt hneg)
    simp [ReadBytes, if_pos hneg, hz]
  · push_neg at hneg
    have hn : ((n.toNat : Nat) : Int) = n := Int.toNat_of_nonneg hneg
    by_cases hk : n.toNat ≤ calcReadableBytes pb
    · have hmin : min n.toNat (ReadableBytes pb) = n.toNat :=
        min_eq_left hk
    -- reuse the in-bounds specification
      have hspec := readBytes_spec pb n.toNat ⟨h1, h2, h3⟩ hk
      rw [hn] at hspec
      rw [hspec, hmin]
      refine ⟨by simp, rfl, ?_⟩
      simp only [calcReadableBytes] at hk
      simp [List.length_take]
      omega
    · simp only [calcReadableBytes, not_le] at hk
      have hmin : min n.toNat (ReadableBytes pb) = pb.writeIndex - pb.readIndex := by
        simp [ReadableBytes, calcReadableBytes]
        omega
      have hneg2 : ¬(n < 0) := by omega
      have htgt : ¬(pb.readIndex + n.toNat ≤ pb.writeIndex) := by omega
      have hsrclen : ((pb.buffer.drop pb.readIndex).take
          (pb.writeIndex - pb.readIndex)).length = pb.writeIndex - pb.readIndex := by
        simp
        omega
      simp only [ReadBytes, if_neg hneg2, if_neg htgt, hmin]
      have hcopy : goCopy (List.replicate n.toNat 0)
          ((pb.buffer.drop pb.readIndex).take (pb.writeIndex - pb.readIndex)) =
          unread pb ++ List.replicate (n.toNat - (pb.writeIndex - pb.readIndex)) 0 := by
        rw [goCopy_of_le _ _ (by rw [hsrclen]; simp; omega), hsrclen, List.drop_replicate]
        rfl
      refine ⟨?_, ?_, ?_⟩
      · rw [hcopy, List.take_of_length_le (by omega)]
      · have hidx : pb.readIndex + (pb.writeIndex - pb.readIndex) = pb.writeIndex := by omega
        rw [hidx]
      · rw [hcopy]
        simp [hulen]
        omega

/-- Evaluation of the C1 failing input.  The sequence
write [1,2,3,4]; readBytes 2; Release; write [5,6]; readBytes 2;
readBytes 2 on a buffer of initial size 4 loses the bytes written after
the Release: Release reallocates the slice to 2 bytes but leaves the
recorded capacity at 4, so the following WriteBytes believes it has room
and silently truncates its copy, and the final read leaves the Go
implementation indexing past the end of the slice
(readIndex + 2 > len(buffer), a runtime panic) instead of returning the
bytes [5, 6] that were written. -/
theorem C1_release_then_write_loses_data :
    (ReadBytes (WriteBytes (newElasticUnsafeByteBuf 4) [1, 2, 3, 4]) 2).1 = [1, 2] ∧
      (let b2 := (ReadBytes (WriteBytes (newElasticUnsafeByteBuf 4) [1, 2, 3, 4]) 2).2
       let b3 := Release b2
       let b4 := WriteBytes b3 [5, 6]
       let r2 := (ReadBytes b4 2).1
       let b5 := (ReadBytes b4 2).2
       let r3 := (ReadBytes b5 2).1
       r2 = [3, 4] ∧ r3 = [0, 0] ∧ r3 ≠ [5, 6] ∧
         b3.capacity = 4 ∧ b3.buffer.length = 2 ∧
         b5.readIndex + 2 > b5.buffer.length) := by
  decide

/-- C2 counterexample: the claim says readBytes(n) returns at most
min(n, w - r) bytes, but after writing a single byte 7, readBytes 3
returns the 3-byte slice [7, 0, 0] (the source allocates
make([]byte, length) and zero-pads), and advances the read index by 1,
not by the number of bytes returned. -/
theorem C2_readBytes_counterexample :
    (ReadBytes (WriteBytes (newElasticUnsafeByteBuf 4) [7]) 3).1 = [7, 0, 0] ∧
      (ReadBytes (WriteBytes (newElasticUnsafeByteBuf 4) [7]) 3).1.length = 3 ∧
      ¬((ReadBytes (WriteBytes (newElasticUnsafeByteBuf 4) [7]) 3).1.length ≤
          min 3 (ReadableBytes (WriteBytes (newElasticUnsafeByteBuf 4) [7]))) ∧
      (ReadBytes (WriteBytes (newElasticUnsafeByteBuf 4) [7]) 3).2.readIndex = 1 := by
  decide

/-- C2 (amended): for every well-formed buffer state, readBytes(n) with
n ≥ 0 returns a slice of exactly n bytes whose first min(n, w - r)
entries are the next unread bytes and whose remainder is zero filled,
and advances r by min(n, w - r); for n < 0 it returns an empty slice
without advancing r, and for n = 0 it returns an empty slice without
advancing r. -/
theorem C2_readBytes_length_and_order (pb : ByteBuf) (n : Int) (hInv : bufInv pb) :
    (ReadBytes pb n).1 =
        (unread pb).take (min n.toNat (ReadableBytes pb)) ++
          List.replicate (n.toNat - min n.toNat (ReadableBytes pb)) 0 ∧
      (ReadBytes pb n).2 =
        { pb with readIndex := pb.readIndex + min n.toNat (ReadableBytes pb) } ∧
      (ReadBytes pb n).1.length = n.toNat :=
  readBytes_amended_spec pb n hInv

/-- Witness for C2: the amended statement evaluated at the concrete
buffer holding one unread byte 7 and at n = 3. -/
theorem C2_readBytes_length_and_order_witness :
    bufInv (WriteBytes (newElasticUnsafeByteBuf 4) [7]) ∧
      ((ReadBytes (WriteBytes (newElasticUnsafeByteBuf 4) [7]) 3).1 =
          (unread (WriteBytes (newElasticUnsafeByteBuf 4) [7])).take
            (min (Int.toNat 3) (ReadableBytes (WriteBytes (newElasticUnsafeByteBuf 4) [7]))) ++
            List.replicate (Int.toNat 3 -
              min (Int.toNat 3) (ReadableBytes (WriteBytes (newElasticUnsafeByteBuf 4) [7]))) 0 ∧
        (ReadBytes (WriteBytes (newElasticUnsafeByteBuf 4) [7]) 3).2 =
          { WriteBytes (newElasticUnsafeByteBuf 4) [7] with
              readIndex := (WriteBytes (newElasticUnsafeByteBuf 4) [7]).readIndex +
                min (Int.toNat 3) (ReadableBytes (WriteBytes (newElasticUnsafeByteBuf 4) [7])) } ∧
        (ReadBytes (WriteBytes (newElasticUnsafeByteBuf 4) [7]) 3).1.length = Int.toNat 3) :=
  ⟨by decide, C2_readBytes_length_and_order (WriteBytes (newElasticUnsafeByteBuf 4) [7]) 3
    (by decide)⟩

/-! ## TLV frame codec, from src/net/tcp/codec/tlv.go -/

def tagSize : Nat := 1

def lengthSize : Nat := 4

/-- Model of `codec.TLVConfig`.  `TagValue` is a `uint8`, `FrameLimit`
a `uint32`. -/
structure TLVConfig where
  TagValue : Nat
  FrameLimit : Nat
deriving Repr, DecidableEq

/-- Big-endian 4-byte encoding of a `uint32` value, as produced by
`binary.Write(w, binary.BigEndian, u32)`. -/
def natToBe32 (n : Nat) : List Nat :=
  [n / 2 ^ 24 % 256, n / 2 ^ 16 % 256, n / 2 ^ 8 % 256, n % 256]

/-- Value of 4 bytes interpreted big-endian, as read by
`binary.Read(r, binary.BigEndian, &u32)`. -/
def be32ToNat (b : List Nat) : Nat :=
  b.getD 0 0 * 2 ^ 24 + b.getD 1 0 * 2 ^ 16 + b.getD 2 0 * 2 ^ 8 + b.getD 3 0

theorem natToBe32_length (n : Nat) : (natToBe32 n).length = 4 := rfl

theorem be32_roundtrip (n : Nat) (h : n < 2 ^ 32) : be32ToNat (natToBe32 n) = n := by
  simp [natToBe32, be32ToNat]
  omega

/-- State of `codec.TLVFrameDecoder`: configuration plus the three
latched fields of the resumable frame state machine. -/
structure TLVFrameDecoder where
  Config : TLVConfig
  hasTag : Bool
  hasLength : Bool
  tagValue : Nat
  lengthValue : Nat
deriving Repr, DecidableEq

/-- Model of `NewTLVFrameDecoder`. -/
def newTLVFrameDecoder (config : TLVConfig) : TLVFrameDecoder :=
  { Config := config, hasTag := false, hasLength := false, tagValue := 0, lengthValue := 0 }

/-- Model of `TLVFrameDecoder.resetBuffer`. -/
def resetBuffer (c : TLVFrameDecoder) : TLVFrameDecoder :=
  { c with hasTag := false, hasLength := false, tagValue := 0, lengthValue := 0 }

/-- Result of one `Decode` call: in Go, `(interface..., error)` where a
non-nil first component is an emitted payload, `(nil, nil)` asks for
more bytes, and a non-nil error reports a malformed frame. -/
inductive DecOut where
  | emit (payload : List Nat)
  | needMore
  | fail (cause : String)
deriving Repr, DecidableEq

/-- Phase 3 of `TLVFrameDecoder.Decode` (parse V): runs with
`hasTag && hasLength`; requires `lengthValue` readable bytes, then
validates the frame size limit and either fails (without resetting the
latches) or emits the payload and resets. -/
def decodeValuePhase (c : TLVFrameDecoder) (bin : ByteBuf) :
    TLVFrameDecoder × ByteBuf × DecOut :=
  if ReadableBytes bin < c.lengthValue then (c, bin, .needMore)
  else
    let rr := ReadBytes bin (c.lengthValue : Int)
    if c.Config.FrameLimit > 0 ∧ tagSize + lengthSize + rr.1.length > c.Config.FrameLimit then
      (c, rr.2, .fail "frame size larger than limit")
    else (resetBuffer c, rr.2, .emit rr.1)

/-- Phase 2 of `TLVFrameDecoder.Decode` (parse L): requires 4 readable
bytes, latches the big-endian length and falls through to phase 3. -/
def decodeLengthPhase (c : TLVFrameDecoder) (bin : ByteBuf) :
    TLVFrameDecoder × ByteBuf × DecOut :=
  if !c.hasLength then
    if ReadableBytes bin < lengthSize then (c, bin, .needMore)
    else
      let rr := ReadBytes bin (lengthSize : Int)
      decodeValuePhase { c with lengthValue := be32ToNat rr.1, hasLength := true } rr.2
  else decodeValuePhase c bin

/-- Model of `TLVFrameDecoder.Decode` (phase 1, parse T, then fall
through): requires a readable byte, consumes it, fails on a tag
mismatch (leaving the latches untouched but the byte consumed), and
otherwise latches the tag and continues with phases 2 and 3. -/
def Decode (c : TLVFrameDecoder) (bin : ByteBuf) : TLVFrameDecoder × ByteBuf × DecOut :=
  if !c.hasTag then
    if ReadableBytes bin < tagSize then (c, bin, .needMore)
    else
      let rr := ReadBytes bin (tagSize : Int)
      let tag := rr.1.headD 0
      if tag ≠ c.Config.TagValue then (c, rr.2, .fail "illegal tag found")
      else decodeLengthPhase { c with tagValue := tag, hasTag := true } rr.2
  else decodeLengthPhase c bin

/-- Queue-level semantics of phase 3, used by the stream proofs: the
buffer is abstracted to its readable byte list. -/
def decodeValuePhaseQ (c : TLVFrameDecoder) (q : List Nat) :
    TLVFrameDecoder × List Nat × DecOut :=
  if q.length < c.lengthValue then (c, q, .needMore)
  else
    let v := q.take c.lengthValue
    if c.Config.FrameLimit > 0 ∧ tagSize + lengthSize + v.length > c.Config.FrameLimit then
      (c, q.drop c.lengthValue, .fail "frame size larger than limit")
    else (resetBuffer c, q.drop c.lengthValue, .emit v)

/-- Queue-level semantics of phase 2. -/
def decodeLengthPhaseQ (c : TLVFrameDecoder) (q : List Nat) :
    TLVFrameDecoder × List Nat × DecOut :=
  if !c.hasLength then
    if q.length < lengthSize then (c, q, .needMore)
    else decodeValuePhaseQ
      { c with lengthValue := be32ToNat (q.take lengthSize), hasLength := true }
      (q.drop lengthSize)
  else decodeValuePhaseQ c q

/-- Queue-level semantics of `Decode`. -/
def decodeQ (c : TLVFrameDecoder) (q : List Nat) : TLVFrameDecoder × List Nat × DecOut :=
  if !c.hasTag then
    if q.length < tagSize then (c, q, .needMore)
    else
      let tag := (q.take tagSize).headD 0
      if tag ≠ c.Config.TagValue then (c, q.drop tagSize, .fail "illegal tag found")
      else decodeLengthPhaseQ { c with tagValue := tag, hasTag := true } (q.drop tagSize)
  else decodeLengthPhaseQ c q

/-- How a drain loop stopped: the decoder asked for more bytes, the
decoder reported an error, or the fuel bound was reached. -/
inductive StopKind where
  | needMore
  | failed
  | fuelOut
deriving Repr, DecidableEq

/-- Result of draining the decoder against a byte buffer. -/
structure DrainResB where
  dec : TLVFrameDecoder
  buf : ByteBuf
  outs : List (List Nat)
  stop : StopKind
deriving Repr, DecidableEq

/-- Result of draining the queue-level decoder. -/
structure DrainResQ where
  dec : TLVFrameDecoder
  q : List Nat
  outs : List (List Nat)
  stop : StopKind
deriving Repr, DecidableEq

/-- Drain loop against a byte buffer: call `Decode` repeatedly,
collecting each emitted payload, until the decoder reports that more
bytes are needed (or fails, or the fuel bound is reached).  This is the
reading loop of `duplexPipeline.handleConnRead` restricted to a single
buffered chunk. -/
def drainB : Nat → TLVFrameDecoder → ByteBuf → DrainResB
  | 0, c, bin => ⟨c, bin, [], .fuelOut⟩
  | fuel + 1, c, bin =>
    match Decode c bin with
    | (c1, bin1, .emit v) =>
      let r := drainB fuel c1 bin1
      ⟨r.dec, r.buf, v :: r.outs, r.stop⟩
    | (c1, bin1, .needMore) => ⟨c1, bin1, [], .needMore⟩
    | (c1, bin1, .fail _) => ⟨c1, bin1, [], .failed⟩

/-- Queue-level drain loop. -/
def drainQ : Nat → TLVFrameDecoder → List Nat → DrainResQ
  | 0, c, q => ⟨c, q, [], .fuelOut⟩
  | fuel + 1, c, q =>
    match decodeQ c q with
    | (c1, q1, .emit v) =>
      let r := drainQ fuel c1 q1
      ⟨r.dec, r.q, v :: r.outs, r.stop⟩
    | (c1, q1, .needMore) => ⟨c1, q1, [], .needMore⟩
    | (c1, q1, .fail _) => ⟨c1, q1, [], .failed⟩

/-- Feed a sequence of byte chunks into a single decoder: append each
chunk to the input buffer with `WriteBytes`, then drain; the emitted
payloads of all chunks are concatenated in order. -/
def feedChunksB (fuel : Nat) (c : TLVFrameDecoder) (bin : ByteBuf) :
    List (List Nat) → TLVFrameDecoder × ByteBuf × List (List Nat)
  | [] => (c, bin, [])
  | chunk :: rest =>
    let r := drainB fuel c (WriteBytes bin chunk)
    let r2 := feedChunksB fuel r.dec r.buf rest
    (r2.1, r2.2.1, r.outs ++ r2.2.2)

/-- The on-wire frame for a payload: tag byte, 4-byte big-endian
length, payload. -/
def tlvFrame (config : TLVConfig) (payload : List Nat) : List Nat :=
  config.TagValue :: (natToBe32 payload.length ++ payload)

/-- Concatenation of the frames of a payload sequence. -/
def streamBytes (config : TLVConfig) (payloads : List (List Nat)) : List Nat :=
  (payloads.map (tlvFrame config)).flatten

/-- A payload the TLV encoder can emit under a configuration: the frame
size 1 + 4 + len fits in a uint32 and respects the configured limit. -/
def validPayload (config : TLVConfig) (p : List Nat) : Prop :=
  p.length + (tagSize + lengthSize) < 2 ^ 32 ∧
    (config.FrameLimit > 0 → tagSize + lengthSize + p.length ≤ config.FrameLimit)

instance (config : TLVConfig) (p : List Nat) : Decidable (validPayload config p) := by
  unfold validPayload; infer_instance

/-- Correspondence between a decode step on a byte buffer and the same
step on the abstracted queue of readable bytes. -/
def absRel (x : TLVFrameDecoder × ByteBuf × DecOut)
    (y : TLVFrameDecoder × List Nat × DecOut) : Prop :=
  x.1 = y.1 ∧ unread x.2.1 = y.2.1 ∧ x.2.2 = y.2.2 ∧ bufInv x.2.1

theorem decodeValuePhase_abs (c : TLVFrameDecoder) (bin : ByteBuf) (h : bufInv bin) :
    absRel (decodeValuePhase c bin) (decodeValuePhaseQ c (unread bin)) := by
  have hlen : (unread bin).length = ReadableBytes bin := unread_length bin h
  by_cases hc : ReadableBytes bin < c.lengthValue
  · have hcq : (unread bin).length < c.lengthValue := by rw [hlen]; exact hc
    simp only [decodeValuePhase, decodeValuePhaseQ, if_pos hc, if_pos hcq]
    exact ⟨rfl, rfl, rfl, h⟩
  · have hk : c.lengthValue ≤ calcReadableBytes bin := by
      simpa [ReadableBytes, not_lt] using hc
    have hcq : ¬((unread bin).length < c.lengthValue) := by rw [hlen]; exact hc
    have hspec := readBytes_spec bin c.lengthValue h hk
    have hinv2 := readBytes_bufInv bin c.lengthValue h hk
    simp only [hspec] at hinv2
    simp only [decodeValuePhase, decodeValuePhaseQ, if_neg hc, if_neg hcq, hspec]
    by_cases hlim : c.Config.FrameLimit > 0 ∧
        tagSize + lengthSize + ((unread bin).take c.lengthValue).length > c.Config.FrameLimit
    · simp only [if_pos hlim]
      exact ⟨rfl, hinv2.2, rfl, hinv2.1⟩
    · simp only [if_neg hlim]
      exact ⟨rfl, hinv2.2, rfl, hinv2.1⟩

theorem decodeLengthPhase_abs (c : TLVFrameDecoder) (bin : ByteBuf) (h : bufInv bin) :
    absRel (decodeLengthPhase c bin) (decodeLengthPhaseQ c (unread bin)) := by
  have hlen : (unread bin).length = ReadableBytes bin := unread_length bin h
  by_cases hl : c.hasLength
  · simp only [decodeLengthPhase, decodeLengthPhaseQ, hl, Bool.not_true, Bool.false_eq_true,
      if_false]
    exact decodeValuePhase_abs c bin h
  · have hl2 : c.hasLength = false := by simp [hl]
    by_cases hc : ReadableBytes bin < lengthSize
    · have hcq : (unread bin).length < lengthSize := by rw [hlen]; exact hc
      simp only [decodeLengthPhase, decodeLengthPhaseQ, hl2, Bool.not_false, if_true,
        if_pos hc, if_pos hcq]
      exact ⟨rfl, rfl, rfl, h⟩
    · have hk : lengthSize ≤ calcReadableBytes bin := by
        simpa [ReadableBytes, not_lt] using hc
      have hcq : ¬((unread bin).length < lengthSize) := by rw [hlen]; exact hc
      have hspec := readBytes_spec bin lengthSize h hk
      have hinv2 := readBytes_bufInv bin lengthSize h hk
      simp only [hspec] at hinv2
      simp only [decodeLengthPhase, decodeLengthPhaseQ, hl2, Bool.not_false, if_true,
        if_neg hc, if_neg hcq, hspec]
      have := decodeValuePhase_abs
        { c with lengthValue := be32ToNat ((unread bin).take lengthSize), hasLength := true }
        (ReadBytes bin (lengthSize : Int)).2 (by rw [hspec]; exact hinv2.1)
      rw [hspec] at this
      rw [hinv2.2] at this
      exact this

theorem decode_abs (c : TLVFrameDecoder) (bin : ByteBuf) (h : bufInv bin) :
    absRel (Decode c bin) (decodeQ c (unread bin)) := by
  have hlen : (unread bin).length = ReadableBytes bin := unread_length bin h
  by_cases ht : c.hasTag
  · simp only [Decode, decodeQ, ht, Bool.not_true, Bool.false_eq_true, if_false]
    exact decodeLengthPhase_abs c bin h
  · have ht2 : c.hasTag = false := by simp [ht]
    by_cases hc : ReadableBytes bin < tagSize
    · have hcq : (unread bin).length < tagSize := by rw [hlen]; exact hc
      simp only [Decode, decodeQ, ht2, Bool.not_false, if_true, if_pos hc, if_pos hcq]
      exact ⟨rfl, rfl, rfl, h⟩
    · have hk : tagSize ≤ calcReadableBytes bin := by
        simpa [ReadableBytes, not_lt] using hc
      have hcq : ¬((unread bin).length < tagSize) := by rw [hlen]; exact hc
      have hspec := readBytes_spec bin tagSize h hk
      have hinv2 := readBytes_bufInv bin tagSize h hk
      simp only [hspec] at hinv2
      simp only [Decode, decodeQ, ht2, Bool.not_false, if_true, if_neg hc, if_neg hcq, hspec]
      by_cases htag : ((unread bin).take tagSize).headD 0 ≠ c.Config.TagValue
      · simp only [if_pos htag]
        exact ⟨rfl, hinv2.2, rfl, hinv2.1⟩
      · simp only [if_neg htag]
        have := decodeLengthPhase_abs
          { c with tagValue := ((unread bin).take tagSize).headD 0, hasTag := true }
          (ReadBytes bin (tagSize : Int)).2 (by rw [hspec]; exact hinv2.1)
        rw [hspec] at this
        rw [hinv2.2] at this
        exact this

theorem drainB_abs (fuel : Nat) (c : TLVFrameDecoder) (bin : ByteBuf) (h : bufInv bin) :
    (drainB fuel c bin).dec = (drainQ fuel c (unread bin)).dec ∧
      unread (drainB fuel c bin).buf = (drainQ fuel c (unread bin)).q ∧
      (drainB fuel c bin).outs = (drainQ fuel c (unread bin)).outs ∧
      (drainB fuel c bin).stop = (drainQ fuel c (unread bin)).stop ∧
      bufInv (drainB fuel c bin).buf := by
  induction fuel generalizing c bin with
  | zero => exact ⟨rfl, rfl, rfl, rfl, h⟩
  | succ fuel ih =>
    have habs := decode_abs c bin h
    rcases hx : Decode c bin with ⟨c1, bin1, out1⟩
    rcases hy : decodeQ c (unread bin) with ⟨c2, q2, out2⟩
    rw [hx, hy] at habs
    obtain ⟨he1, he2, he3, hinv1⟩ := habs
    simp only at he1 he2 he3
    subst he1
    subst he3
    cases out1 with
    | emit v =>
      have := ih c1 bin1 hinv1
      rw [he2] at this
      simp only [drainB, drainQ, hx, hy]
      exact ⟨this.1, this.2.1, by rw [this.2.2.1], this.2.2.2.1, this.2.2.2.2⟩
    | needMore =>
      simp only [drainB, drainQ, hx, hy]
      exact ⟨trivial, he2, trivial, trivial, hinv1⟩
    | fail cause =>
      simp only [drainB, drainQ, hx, hy]
      exact ⟨trivial, he2, trivial, trivial, hinv1⟩

/-- Bytes logically held inside the decoder latches: a latched tag
stands for the consumed tag byte, a latched length for the consumed
4-byte big-endian length field. -/
def repState (cfg : TLVConfig) (c : TLVFrameDecoder) : List Nat :=
  (if c.hasTag then [cfg.TagValue] else []) ++
    (if c.hasLength then natToBe32 c.lengthValue else [])

/-- Consistency of a decoder state reachable while scanning a valid
stream under configuration cfg. -/
def stateOK (cfg : TLVConfig) (c : TLVFrameDecoder) : Prop :=
  c.Config = cfg ∧ (c.hasLength = true → c.hasTag = true) ∧
    (c.hasLength = true → c.lengthValue < 2 ^ 32)

theorem streamBytes_nil (cfg : TLVConfig) : streamBytes cfg [] = [] := rfl

theorem streamBytes_cons (cfg : TLVConfig) (p : List Nat) (rest : List (List Nat)) :
    streamBytes cfg (p :: rest) =
      cfg.TagValue :: (natToBe32 p.length ++ (p ++ streamBytes cfg rest)) := by
  simp [streamBytes, tlvFrame]

theorem repState_reset (cfg : TLVConfig) (c : TLVFrameDecoder) :
    repState cfg (resetBuffer c) = [] := by
  simp [repState, resetBuffer]

theorem stateOK_reset (cfg : TLVConfig) (c : TLVFrameDecoder) (h : c.Config = cfg) :
    stateOK cfg (resetBuffer c) := by
  simp [stateOK, resetBuffer, h]

theorem valQ_step (cfg : TLVConfig) (c : TLVFrameDecoder) (q future p : List Nat)
    (rest : List (List Nat))
    (hlen : c.lengthValue = p.length)
    (hvp : validPayload cfg p)
    (hcfg : c.Config = cfg)
    (heq : q ++ future = p ++ streamBytes cfg rest) :
    (q.length < p.length ∧ decodeValuePhaseQ c q = (c, q, .needMore))
    ∨ (p.length ≤ q.length ∧
        decodeValuePhaseQ c q = (resetBuffer c, q.drop p.length, .emit p) ∧
        q.drop p.length ++ future = streamBytes cfg rest) := by
  by_cases hq : q.length < c.lengthValue
  · left
    exact ⟨by omega, by simp [decodeValuePhaseQ, if_pos hq]⟩
  · right
    rw [hlen] at hq
    push_neg at hq
    have htake : q.take p.length = p := by
      have h1 : (q ++ future).take p.length = q.take p.length :=
        List.take_append_of_le_length hq
      have h2 : (p ++ streamBytes cfg rest).take p.length = p := List.take_left p _
      rw [← h1, heq, h2]
    have hdrop : q.drop p.length ++ future = streamBytes cfg rest := by
      have h1 : (q ++ future).drop p.length = q.drop p.length ++ future :=
        List.drop_append_of_le_length hq
      have h2 : (p ++ streamBytes cfg rest).drop p.length = streamBytes cfg rest :=
        List.drop_left p _
      rw [← h1, heq, h2]
    have hnolim : ¬(c.Config.FrameLimit > 0 ∧
        tagSize + lengthSize + p.length > c.Config.FrameLimit) := by
      rw [hcfg]
      intro hcontra
      exact absurd (hvp.2 hcontra.1) (by omega)
    refine ⟨hq, ?_, hdrop⟩
    simp only [decodeValuePhaseQ, hlen, htake]
    rw [if_neg (by omega : ¬(q.length < p.length)), if_neg hnolim]

theorem lenQ_step (cfg : TLVConfig) (c : TLVFrameDecoder) (q future p : List Nat)
    (rest : List (List Nat))
    (hLf : c.hasLength = false)
    (hvp : validPayload cfg p)
    (heq : q ++ future = natToBe32 p.length ++ (p ++ streamBytes cfg rest)) :
    (q.length < 4 ∧ decodeLengthPhaseQ c q = (c, q, .needMore))
    ∨ (4 ≤ q.length ∧
        decodeLengthPhaseQ c q =
          decodeValuePhaseQ { c with lengthValue := p.length, hasLength := true } (q.drop 4) ∧
        q.drop 4 ++ future = p ++ streamBytes cfg rest) := by
  by_cases hq : q.length < lengthSize
  · left
    exact ⟨hq, by simp [decodeLengthPhaseQ, hLf, if_pos hq]⟩
  · right
    have hq4 : 4 ≤ q.length := by simpa [lengthSize, not_lt] using hq
    have hbe : (natToBe32 p.length).length = 4 := natToBe32_length p.length
    have htake : q.take 4 = natToBe32 p.length := by
      have h1 : (q ++ future).take 4 = q.take 4 := List.take_append_of_le_length hq4
      have h2 : (natToBe32 p.length ++ (p ++ streamBytes cfg rest)).take 4
          = natToBe32 p.length := by
        rw [← hbe]
        exact List.take_left _ _
      rw [← h1, heq, h2]
    have hdrop : q.drop 4 ++ future = p ++ streamBytes cfg rest := by
      have h1 : (q ++ future).drop 4 = q.drop 4 ++ future :=
        List.drop_append_of_le_length hq4
      have h2 : (natToBe32 p.length ++ (p ++ streamBytes cfg rest)).drop 4
          = p ++ streamBytes cfg rest := by
        rw [← hbe]
        exact List.drop_left _ _
      rw [← h1, heq, h2]
    have hrt : be32ToNat (q.take lengthSize) = p.length := by
      have : (lengthSize : Nat) = 4 := rfl
      rw [this, htake]
      exact be32_roundtrip p.length (by have := hvp.1; simp [tagSize, lengthSize] at this; omega)
    refine ⟨hq4, ?_, hdrop⟩
    simp only [decodeLengthPhaseQ, hLf, Bool.not_false, if_true, if_neg hq, hrt]
    rfl

theorem valonly_step (cfg : TLVConfig) (c : TLVFrameDecoder) (q future p : List Nat)
    (rest : List (List Nat))
    (hT : c.hasTag = true) (hL : c.hasLength = true) (hcfg : c.Config = cfg)
    (hlen : c.lengthValue = p.length) (hvp : validPayload cfg p)
    (heq : q ++ future = p ++ streamBytes cfg rest) :
    ((decodeValuePhaseQ c q).2.2 = .needMore ∧
      stateOK cfg (decodeValuePhaseQ c q).1 ∧
      repState cfg (decodeValuePhaseQ c q).1 ++ ((decodeValuePhaseQ c q).2.1 ++ future)
        = streamBytes cfg (p :: rest) ∧
      (repState cfg (decodeValuePhaseQ c q).1).length + (decodeValuePhaseQ c q).2.1.length
        < tagSize + lengthSize + p.length)
    ∨ ((decodeValuePhaseQ c q).2.2 = .emit p ∧
        (decodeValuePhaseQ c q).1.hasTag = false ∧
        (decodeValuePhaseQ c q).1.hasLength = false ∧
        (decodeValuePhaseQ c q).1.Config = cfg ∧
        (decodeValuePhaseQ c q).2.1 ++ future = streamBytes cfg rest) := by
  have hp32 : p.length < 2 ^ 32 := by
    have := hvp.1
    simp [tagSize, lengthSize] at this
    omega
  rcases valQ_step cfg c q future p rest hlen hvp hcfg heq with ⟨hlt, heval⟩ | ⟨hge, heval, hrest⟩
  · left
    rw [heval]
    refine ⟨rfl, ⟨hcfg, fun _ => hT, fun _ => by rw [hlen]; exact hp32⟩, ?_, ?_⟩
    · simp only [repState, hT, hL, if_true, hlen]
      rw [streamBytes_cons]
      simp [List.append_assoc, heq]
    · simp [repState, hT, hL, natToBe32, tagSize, lengthSize]
      omega
  · right
    rw [heval]
    exact ⟨rfl, by simp [resetBuffer], by simp [resetBuffer], by simp [resetBuffer, hcfg], hrest⟩

theorem lenval_step (cfg : TLVConfig) (c : TLVFrameDecoder) (q future p : List Nat)
    (rest : List (List Nat))
    (hT : c.hasTag = true) (hLf : c.hasLength = false) (hcfg : c.Config = cfg)
    (hvp : validPayload cfg p)
    (heq : q ++ future = natToBe32 p.length ++ (p ++ streamBytes cfg rest)) :
    ((decodeLengthPhaseQ c q).2.2 = .needMore ∧
      stateOK cfg (decodeLengthPhaseQ c q).1 ∧
      repState cfg (decodeLengthPhaseQ c q).1 ++ ((decodeLengthPhaseQ c q).2.1 ++ future)
        = streamBytes cfg (p :: rest) ∧
      (repState cfg (decodeLengthPhaseQ c q).1).length + (decodeLengthPhaseQ c q).2.1.length
        < tagSize + lengthSize + p.length)
    ∨ ((decodeLengthPhaseQ c q).2.2 = .emit p ∧
        (decodeLengthPhaseQ c q).1.hasTag = false ∧
        (decodeLengthPhaseQ c q).1.hasLength = false ∧
        (decodeLengthPhaseQ c q).1.Config = cfg ∧
        (decodeLengthPhaseQ c q).2.1 ++ future = streamBytes cfg rest) := by
  rcases lenQ_step cfg c q future p rest hLf hvp heq with ⟨hlt, heval⟩ | ⟨hge, heval, hrest⟩
  · left
    rw [heval]
    refine ⟨rfl, ⟨hcfg, fun h => hT, fun h => by rw [hLf] at h; exact absurd h (by simp)⟩,
      ?_, ?_⟩
    · simp only [repState, hT, hLf, if_true, if_false]
      rw [streamBytes_cons]
      simp [List.append_assoc, heq]
    · simp [repState, hT, hLf, tagSize, lengthSize]
      omega
  · rw [heval]
    have hvo := valonly_step cfg { c with lengthValue := p.length, hasLength := true }
      (q.drop 4) future p rest (by simp [hT]) (by simp) (by simp [hcfg]) (by simp) hvp hrest
    exact hvo

theorem decodeQ_step (cfg : TLVConfig) (c : TLVFrameDecoder) (q future : List Nat)
    (rem : List (List Nat))
    (hvalid : ∀ p ∈ rem, validPayload cfg p)
    (hok : stateOK cfg c)
    (heq : repState cfg c ++ (q ++ future) = streamBytes cfg rem) :
    ((decodeQ c q).2.2 = .needMore ∧
      stateOK cfg (decodeQ c q).1 ∧
      repState cfg (decodeQ c q).1 ++ ((decodeQ c q).2.1 ++ future) = streamBytes cfg rem ∧
      ∀ p rest2, rem = p :: rest2 →
        (repState cfg (decodeQ c q).1).length + (decodeQ c q).2.1.length
          < tagSize + lengthSize + p.length)
    ∨ (∃ p rest2, rem = p :: rest2 ∧
        (decodeQ c q).2.2 = .emit p ∧
        (decodeQ c q).1.hasTag = false ∧ (decodeQ c q).1.hasLength = false ∧
        (decodeQ c q).1.Config = cfg ∧
        (decodeQ c q).2.1 ++ future = streamBytes cfg rest2) := by
  obtain ⟨hcfg, hTL, hL32⟩ := hok
  by_cases hT : c.hasTag
  · have hdq : decodeQ c q = decodeLengthPhaseQ c q := by
      simp [decodeQ, hT]
    rw [hdq]
    by_cases hL : c.hasLength
    · have hrep : repState cfg c = cfg.TagValue :: natToBe32 c.lengthValue := by
        simp [repState, hT, hL]
      cases rem with
      | nil =>
        rw [streamBytes_nil, hrep] at heq
        simp at heq
      | cons p rest =>
        have hvp : validPayload cfg p := hvalid p (by simp)
        have hp32 : p.length < 2 ^ 32 := by
          have := hvp.1
          simp [tagSize, lengthSize] at this
          omega
        rw [streamBytes_cons, hrep] at heq
        simp only [List.cons_append, List.cons.injEq] at heq
        have hinj := List.append_inj heq.2 (by rw [natToBe32_length, natToBe32_length])
        have hlen : c.lengthValue = p.length := by
          have h1 := congrArg be32ToNat hinj.1
          rwa [be32_roundtrip _ (hL32 hL), be32_roundtrip _ hp32] at h1
        have hdq2 : decodeLengthPhaseQ c q = decodeValuePhaseQ c q := by
          simp [decodeLengthPhaseQ, hL]
        rw [hdq2]
        rcases valonly_step cfg c q future p rest hT hL hcfg hlen hvp hinj.2 with
          ⟨ho1, ho2, ho3, ho4⟩ | ⟨ho1, ho2, ho3, ho4, ho5⟩
        · left
          refine ⟨ho1, ho2, by rw [ho3, streamBytes_cons], ?_⟩
          intro p2 rest2 hrem
          injection hrem with hp2 hrest2
          subst hp2
          exact ho4
        · exact .inr ⟨p, rest, rfl, ho1, ho2, ho3, ho4, ho5⟩
    · have hLf : c.hasLength = false := by simpa using hL
      have hrep : repState cfg c = [cfg.TagValue] := by
        simp [repState, hT, hLf]
      cases rem with
      | nil =>
        rw [streamBytes_nil, hrep] at heq
        simp at heq
      | cons p rest =>
        have hvp : validPayload cfg p := hvalid p (by simp)
        rw [streamBytes_cons, hrep] at heq
        simp only [List.cons_append, List.nil_append, List.cons.injEq] at heq
        rcases lenval_step cfg c q future p rest hT hLf hcfg hvp heq.2 with
          ⟨ho1, ho2, ho3, ho4⟩ | ⟨ho1, ho2, ho3, ho4, ho5⟩
        · left
          refine ⟨ho1, ho2, by rw [ho3, streamBytes_cons], ?_⟩
          intro p2 rest2 hrem
          injection hrem with hp2 hrest2
          subst hp2
          exact ho4
        · exact .inr ⟨p, rest, rfl, ho1, ho2, ho3, ho4, ho5⟩
  · have hTf : c.hasTag = false := by simpa using hT
    have hLf : c.hasLength = false := by
      cases hcl : c.hasLength
      · rfl
      · exact absurd (hTL hcl) (by simp [hTf])
    have hrep : repState cfg c = [] := by
      simp [repState, hTf, hLf]
    rw [hrep, List.nil_append] at heq
    by_cases hq1 : q.length < tagSize
    · have hdq : decodeQ c q = (c, q, .needMore) := by
        simp [decodeQ, hTf, if_pos hq1]
      rw [hdq]
      left
      refine ⟨rfl, ⟨hcfg, hTL, hL32⟩, by rw [hrep, List.nil_append]; exact heq, ?_⟩
      intro p rest2 hrem
      rw [hrep]
      simp only [tagSize, lengthSize, List.length_nil]
      simp only [tagSize] at hq1
      omega
    · cases rem with
      | nil =>
        rw [streamBytes_nil] at heq
        rw [(List.append_eq_nil.mp heq).1] at hq1
        simp [tagSize] at hq1
      | cons p rest =>
        have hvp : validPayload cfg p := hvalid p (by simp)
        rw [streamBytes_cons] at heq
        cases q with
        | nil => simp [tagSize] at hq1
        | cons qh qt =>
          simp only [List.cons_append, List.cons.injEq] at heq
          have hdq : decodeQ c (qh :: qt) =
              decodeLengthPhaseQ { c with tagValue := cfg.TagValue, hasTag := true } qt := by
            have hq2 : ¬((qh :: qt).length < tagSize) := hq1
            simp only [decodeQ, hTf, Bool.not_false, if_true, if_neg hq2]
            have htag : (((qh :: qt).take tagSize).headD 0) = cfg.TagValue := by
              simp [tagSize, heq.1]
            rw [htag]
            rw [if_neg (by simp [hcfg])]
            rfl
          rw [hdq]
          rcases lenval_step cfg { c with tagValue := cfg.TagValue, hasTag := true }
            qt future p rest (by simp) (by simp [hLf]) (by simp [hcfg]) hvp heq.2 with
            ⟨ho1, ho2, ho3, ho4⟩ | ⟨ho1, ho2, ho3, ho4, ho5⟩
          · left
            refine ⟨ho1, ho2, by rw [ho3, streamBytes_cons], ?_⟩
            intro p2 rest2 hrem
            injection hrem with hp2 hrest2
            subst hp2
            exact ho4
          · exact .inr ⟨p, rest, rfl, ho1, ho2, ho3, ho4, ho5⟩

theorem drainQ_valid (cfg : TLVConfig) (fuel : Nat) :
    ∀ (rem : List (List Nat)) (c : TLVFrameDecoder) (q future : List Nat),
      (∀ p ∈ rem, validPayload cfg p) →
      stateOK cfg c →
      repState cfg c ++ (q ++ future) = streamBytes cfg rem →
      rem.length + 1 ≤ fuel →
      ∃ rem1 rem2,
        rem = rem1 ++ rem2 ∧
        (drainQ fuel c q).outs = rem1 ∧
        (drainQ fuel c q).stop = .needMore ∧
        stateOK cfg (drainQ fuel c q).dec ∧
        repState cfg (drainQ fuel c q).dec ++ ((drainQ fuel c q).q ++ future)
          = streamBytes cfg rem2 ∧
        ∀ p rest2, rem2 = p :: rest2 →
          (repState cfg (drainQ fuel c q).dec).length + (drainQ fuel c q).q.length
            < tagSize + lengthSize + p.length := by
  induction fuel with
  | zero =>
    intro rem c q future hvalid hok heq hfuel
    omega
  | succ fuel ih =>
    intro rem c q future hvalid hok heq hfuel
    have hstep := decodeQ_step cfg c q future rem hvalid hok heq
    rcases hdec : decodeQ c q with ⟨c1, q1, out1⟩
    rw [hdec] at hstep
    simp only at hstep
    rcases hstep with ⟨ho1, ho2, ho3, ho4⟩ | ⟨p, rest2, hrem, ho1, hoT, hoL, hoC, ho5⟩
    · subst ho1
      have hrun : drainQ (fuel + 1) c q = ⟨c1, q1, [], .needMore⟩ := by
        simp [drainQ, hdec]
      rw [hrun]
      exact ⟨[], rem, rfl, rfl, rfl, ho2, ho3, ho4⟩
    · subst hrem
      subst ho1
      have hrun : drainQ (fuel + 1) c q =
          ⟨(drainQ fuel c1 q1).dec, (drainQ fuel c1 q1).q,
            p :: (drainQ fuel c1 q1).outs, (drainQ fuel c1 q1).stop⟩ := by
        simp [drainQ, hdec]
      have hok1 : stateOK cfg c1 :=
        ⟨hoC, fun h => by rw [hoL] at h; exact absurd h (by simp),
          fun h => by rw [hoL] at h; exact absurd h (by simp)⟩
      have hrep1 : repState cfg c1 = [] := by
        simp [repState, hoT, hoL]
      obtain ⟨rem1, rem2, hr1, hr2, hr3, hr4, hr5, hr6⟩ :=
        ih rest2 c1 q1 future (fun p2 hp2 => hvalid p2 (by simp [hp2])) hok1
          (by rw [hrep1, List.nil_append]; exact ho5) (by simp at hfuel; omega)
      rw [hrun]
      exact ⟨p :: rem1, rem2, by rw [hr1]; rfl, by rw [hr2], hr3, hr4, hr5, hr6⟩

/-- Queue-level version of `feedChunksB`. -/
def feedChunksQ (fuel : Nat) (c : TLVFrameDecoder) (q : List Nat) :
    List (List Nat) → TLVFrameDecoder × List Nat × List (List Nat)
  | [] => (c, q, [])
  | chunk :: rest =>
    let r := drainQ fuel c (q ++ chunk)
    let r2 := feedChunksQ fuel r.dec r.q rest
    (r2.1, r2.2.1, r.outs ++ r2.2.2)

theorem feedChunksQ_valid (cfg : TLVConfig) (fuel : Nat) :
    ∀ (chunks : List (List Nat)) (rem : List (List Nat)) (c : TLVFrameDecoder) (q : List Nat),
      (∀ p ∈ rem, validPayload cfg p) →
      stateOK cfg c →
      repState cfg c ++ (q ++ chunks.flatten) = streamBytes cfg rem →
      (∀ p rest2, rem = p :: rest2 →
        (repState cfg c).length + q.length < tagSize + lengthSize + p.length) →
      rem.length + 1 ≤ fuel →
      ∃ rem1 rem2,
        rem = rem1 ++ rem2 ∧
        (feedChunksQ fuel c q chunks).2.2 = rem1 ∧
        stateOK cfg (feedChunksQ fuel c q chunks).1 ∧
        repState cfg (feedChunksQ fuel c q chunks).1 ++ (feedChunksQ fuel c q chunks).2.1
          = streamBytes cfg rem2 ∧
        ∀ p rest2, rem2 = p :: rest2 →
          (repState cfg (feedChunksQ fuel c q chunks).1).length +
              (feedChunksQ fuel c q chunks).2.1.length
            < tagSize + lengthSize + p.length := by
  intro chunks
  induction chunks with
  | nil =>
    intro rem c q hvalid hok heq hclause hfuel
    refine ⟨[], rem, rfl, rfl, hok, ?_, hclause⟩
    simpa using heq
  | cons chunk rest ih =>
    intro rem c q hvalid hok heq hclause hfuel
    have heq2 : repState cfg c ++ ((q ++ chunk) ++ rest.flatten) = streamBytes cfg rem := by
      rw [← heq]
      simp [List.append_assoc]
    obtain ⟨remA, remB, ha1, ha2, ha3, ha4, ha5, ha6⟩ :=
      drainQ_valid cfg fuel rem c (q ++ chunk) rest.flatten hvalid hok heq2 hfuel
    have hlenB : remB.length ≤ rem.length := by
      rw [ha1]
      simp
    obtain ⟨rem1, rem2, hb1, hb2, hb3, hb4, hb5⟩ :=
      ih remB (drainQ fuel c (q ++ chunk)).dec (drainQ fuel c (q ++ chunk)).q
        (fun p hp => hvalid p (by rw [ha1]; exact List.mem_append_right _ hp))
        ha4 ha5 ha6 (by omega)
    refine ⟨remA ++ rem1, rem2, by rw [ha1, hb1, List.append_assoc], ?_, hb3, hb4, hb5⟩
    simp only [feedChunksQ]
    rw [ha2, hb2]

/-- Lengths of TLV streams: every frame contributes 5 + payload
length bytes. -/
theorem streamBytes_length_cons (cfg : TLVConfig) (p : List Nat) (rest : List (List Nat)) :
    (streamBytes cfg (p :: rest)).length =
      tagSize + lengthSize + p.length + (streamBytes cfg rest).length := by
  rw [streamBytes_cons]
  simp [natToBe32, tagSize, lengthSize]
  omega

theorem stateOK_new (cfg : TLVConfig) : stateOK cfg (newTLVFrameDecoder cfg) := by
  refine ⟨rfl, ?_, ?_⟩ <;> simp [newTLVFrameDecoder]

theorem repState_new (cfg : TLVConfig) : repState cfg (newTLVFrameDecoder cfg) = [] := by
  simp [repState, newTLVFrameDecoder]

theorem feedChunksQ_complete (cfg : TLVConfig) (fuel : Nat)
    (payloads chunks : List (List Nat))
    (hvalid : ∀ p ∈ payloads, validPayload cfg p)
    (hjoin : chunks.flatten = streamBytes cfg payloads)
    (hfuel : payloads.length + 1 ≤ fuel) :
    (feedChunksQ fuel (newTLVFrameDecoder cfg) [] chunks).2.2 = payloads ∧
      (feedChunksQ fuel (newTLVFrameDecoder cfg) [] chunks).2.1 = [] := by
  obtain ⟨rem1, rem2, h1, h2, h3, h4, h5⟩ :=
    feedChunksQ_valid cfg fuel chunks payloads (newTLVFrameDecoder cfg) []
      hvalid (stateOK_new cfg)
      (by rw [repState_new]; simpa using hjoin)
      (by
        intro p rest2 hrem
        rw [repState_new]
        simp [tagSize, lengthSize])
      hfuel
  have hrem2 : rem2 = [] := by
    cases hr : rem2 with
    | nil => rfl
    | cons p rest2 =>
      exfalso
      rw [hr] at h4 h5
      have hlen := congrArg List.length h4
      rw [streamBytes_length_cons] at hlen
      simp at hlen
      have := h5 p rest2 rfl
      omega
  rw [hrem2] at h1 h4
  refine ⟨by rw [h2, h1]; simp, ?_⟩
  rw [streamBytes_nil] at h4
  exact (List.append_eq_nil.mp h4).2

theorem feedChunksB_abs (fuel : Nat) :
    ∀ (chunks : List (List Nat)) (c : TLVFrameDecoder) (bin : ByteBuf), bufInv bin →
      (feedChunksB fuel c bin chunks).1 = (feedChunksQ fuel c (unread bin) chunks).1 ∧
        unread (feedChunksB fuel c bin chunks).2.1 =
          (feedChunksQ fuel c (unread bin) chunks).2.1 ∧
        (feedChunksB fuel c bin chunks).2.2 = (feedChunksQ fuel c (unread bin) chunks).2.2 ∧
        bufInv (feedChunksB fuel c bin chunks).2.1 := by
  intro chunks
  induction chunks with
  | nil =>
    intro c bin h
    exact ⟨rfl, rfl, rfl, h⟩
  | cons chunk rest ih =>
    intro c bin h
    obtain ⟨hw1, hw2⟩ := writeBytes_spec bin chunk h
    have hd := drainB_abs fuel c (WriteBytes bin chunk) hw1
    rw [hw2] at hd
    obtain ⟨hd1, hd2, hd3, hd4, hd5⟩ := hd
    have hih := ih (drainQ fuel c (unread bin ++ chunk)).dec
      (drainB fuel c (WriteBytes bin chunk)).buf hd5
    rw [hd2] at hih
    simp only [feedChunksB, feedChunksQ]
    rw [hd1, hd3]
    exact ⟨hih.1, hih.2.1, by rw [hih.2.2.1], hih.2.2.2⟩

/-- C4: for every sequence of frames produced by the TLV encoder (valid
payloads framed as tag, big-endian length, value) and every partition of
the concatenated frame bytes into chunks, feeding the chunks one at a
time into a single TLV frame decoder (appending each chunk to the input
buffer with WriteBytes and draining Decode until it reports that more
bytes are needed) yields exactly the original sequence of frame
payloads, and consumes the whole stream.  In particular the result is
the same as feeding the whole stream in one chunk. -/
theorem C4_chunked_decode_complete (cfg : TLVConfig) (payloads chunks : List (List Nat))
    (fuel : Nat) (bin0 : ByteBuf)
    (hvalid : ∀ p ∈ payloads, validPayload cfg p)
    (hjoin : chunks.flatten = streamBytes cfg payloads)
    (hfuel : payloads.length + 1 ≤ fuel)
    (hbuf : bufInv bin0) (hempty : unread bin0 = []) :
    (feedChunksB fuel (newTLVFrameDecoder cfg) bin0 chunks).2.2 = payloads ∧
      unread (feedChunksB fuel (newTLVFrameDecoder cfg) bin0 chunks).2.1 = [] := by
  have habs := feedChunksB_abs fuel chunks (newTLVFrameDecoder cfg) bin0 hbuf
  rw [hempty] at habs
  have hcomp := feedChunksQ_complete cfg fuel payloads chunks hvalid hjoin hfuel
  exact ⟨by rw [habs.2.2.1, hcomp.1], by rw [habs.2.1, hcomp.2]⟩

/-- Witness for C4: the 12-byte payload "Hello World." under
configuration (tag 0xAA, frameLimit 4 MiB) frames to 17 bytes; feeding
that frame one byte at a time produces exactly the one payload, and the
first 16 bytes alone produce nothing, so the single decode happens
exactly on the 17th byte. -/
theorem C4_chunked_decode_complete_witness :
    (∀ p ∈ [[72, 101, 108, 108, 111, 32, 87, 111, 114, 108, 100, 46]],
        validPayload ⟨170, 4194304⟩ p) ∧
      ([[170], [0], [0], [0], [12], [72], [101], [108], [108], [111], [32], [87], [111],
          [114], [108], [100], [46]] : List (List Nat)).flatten
        = streamBytes ⟨170, 4194304⟩
            [[72, 101, 108, 108, 111, 32, 87, 111, 114, 108, 100, 46]] ∧
      (feedChunksB 2 (newTLVFrameDecoder ⟨170, 4194304⟩) (newElasticUnsafeByteBuf 0)
          [[170], [0], [0], [0], [12], [72], [101], [108], [108], [111], [32], [87], [111],
            [114], [108], [100], [46]]).2.2
        = [[72, 101, 108, 108, 111, 32, 87, 111, 114, 108, 100, 46]] ∧
      (feedChunksB 2 (newTLVFrameDecoder ⟨170, 4194304⟩) (newElasticUnsafeByteBuf 0)
          [[170], [0], [0], [0], [12], [72], [101], [108], [108], [111], [32], [87], [111],
            [114], [108], [100]]).2.2 = [] :=
  ⟨by decide, by decide,
    (C4_chunked_decode_complete ⟨170, 4194304⟩
      [[72, 101, 108, 108, 111, 32, 87, 111, 114, 108, 100, 46]]
      [[170], [0], [0], [0], [12], [72], [101], [108], [108], [111], [32], [87], [111],
        [114], [108], [100], [46]] 2 (newElasticUnsafeByteBuf 0)
      (by decide) (by decide) (by decide) (by decide) (by decide)).1,
    by decide⟩

/-- Input of `TLVFrameEncoder.Encode`: in Go an `interface` value that
either is a byte slice or fails the type assertion. -/
inductive GoMsg where
  | bytes (payload : List Nat)
  | other
deriving Repr, DecidableEq

/-- Result of `Encode`: the frame bytes or an `EncodeError`; the model
keeps the cause string of `NewEncodeError("TLVFrameEncoder", cause)`
(for the oversize case the source formats the sizes into the message;
the model keeps the fixed prefix of that message). -/
inductive EncodeResult where
  | ok (frame : List Nat)
  | encodeError (msg : String)
deriving Repr, DecidableEq

/-- Model of `payloadLength := uint32(len(payload))`. -/
def encPayloadLength (payload : List Nat) : Nat :=
  payload.length % 2 ^ 32

/-- Model of `frameSize := uint64(payloadLength + LengthSize + TagSize)`:
the sum is computed in uint32 (wrapping) before widening. -/
def encFrameSize (payload : List Nat) : Nat :=
  (encPayloadLength payload + lengthSize + tagSize) % 2 ^ 32

/-- Assembly step of `TLVFrameEncoder.Encode`: a fresh elastic buffer of
`frameSize` bytes, then `binary.Write` of the tag byte, `binary.Write`
of the big-endian payload length, and `WriteBytes` of the payload. -/
def assembleFrame (cfg : TLVConfig) (frameSize payloadLength : Nat) (payload : List Nat) :
    ByteBuf :=
  WriteBytes
    (WriteBytes
      (WriteBytes (newElasticUnsafeByteBuf (frameSize : Int)) [cfg.TagValue])
      (natToBe32 payloadLength))
    payload

/-- Model of `TLVFrameEncoder.Encode`. -/
def Encode (cfg : TLVConfig) (msg : GoMsg) : EncodeResult :=
  match msg with
  | .other => .encodeError "can not transform input to []byte"
  | .bytes payload =>
    if cfg.FrameLimit > 0 ∧ encFrameSize payload > cfg.FrameLimit then
      .encodeError "frame size larger than limit"
    else
      let b := assembleFrame cfg (encFrameSize payload) (encPayloadLength payload) payload
      if encFrameSize payload ≠ ReadableBytes b then .encodeError "ByteBuf issue"
      else .ok (ReadBytes b (ReadableBytes b : Int)).1

theorem assembleFrame_indexes (cfg : TLVConfig) (fs pl : Nat) (payload : List Nat) :
    (assembleFrame cfg fs pl payload).writeIndex = tagSize + lengthSize + payload.length ∧
      (assembleFrame cfg fs pl payload).readIndex = 0 := by
  simp only [assembleFrame]
  obtain ⟨h1w, h1r⟩ := writeBytes_indexes (newElasticUnsafeByteBuf (fs : Int)) [cfg.TagValue]
  obtain ⟨h2w, h2r⟩ :=
    writeBytes_indexes (WriteBytes (newElasticUnsafeByteBuf (fs : Int)) [cfg.TagValue])
      (natToBe32 pl)
  obtain ⟨h3w, h3r⟩ :=
    writeBytes_indexes
      (WriteBytes (WriteBytes (newElasticUnsafeByteBuf (fs : Int)) [cfg.TagValue])
        (natToBe32 pl))
      payload
  rw [h3w, h2w, h1w, h3r, h2r, h1r]
  have : (newElasticUnsafeByteBuf (fs : Int)).writeIndex = 0 := rfl
  rw [this]
  have : (newElasticUnsafeByteBuf (fs : Int)).readIndex = 0 := rfl
  rw [this]
  rw [natToBe32_length]
  refine ⟨?_, rfl⟩
  simp [tagSize, lengthSize]

theorem assembleFrame_readable (cfg : TLVConfig) (fs pl : Nat) (payload : List Nat) :
    ReadableBytes (assembleFrame cfg fs pl payload) = tagSize + lengthSize + payload.length := by
  obtain ⟨hw, hr⟩ := assembleFrame_indexes cfg fs pl payload
  simp [ReadableBytes, calcReadableBytes, hw, hr]

theorem assembleFrame_unread (cfg : TLVConfig) (fs pl : Nat) (payload : List Nat) :
    bufInv (assembleFrame cfg fs pl payload) ∧
      unread (assembleFrame cfg fs pl payload) =
        cfg.TagValue :: (natToBe32 pl ++ payload) := by
  obtain ⟨ha1, ha2⟩ :=
    writeBytes_spec (newElasticUnsafeByteBuf (fs : Int)) [cfg.TagValue]
      (bufInv_new (fs : Int))
  obtain ⟨hb1, hb2⟩ :=
    writeBytes_spec (WriteBytes (newElasticUnsafeByteBuf (fs : Int)) [cfg.TagValue])
      (natToBe32 pl) ha1
  obtain ⟨hc1, hc2⟩ :=
    writeBytes_spec
      (WriteBytes (WriteBytes (newElasticUnsafeByteBuf (fs : Int)) [cfg.TagValue])
        (natToBe32 pl))
      payload hb1
  refine ⟨hc1, ?_⟩
  rw [assembleFrame, hc2, hb2, ha2, unread_new]
  simp

/-- Full characterization of `Encode` on byte-slice inputs whose frame
size does not overflow a uint32. -/
theorem encode_spec (cfg : TLVConfig) (payload : List Nat)
    (hsize : payload.length + (tagSize + lengthSize) < 2 ^ 32) :
    Encode cfg (.bytes payload) =
      if cfg.FrameLimit > 0 ∧ tagSize + lengthSize + payload.length > cfg.FrameLimit then
        .encodeError "frame size larger than limit"
      else .ok (tlvFrame cfg payload) := by
  have hts : tagSize = 1 := rfl
  have hls : lengthSize = 4 := rfl
  have hpl : encPayloadLength payload = payload.length := by
    rw [encPayloadLength, Nat.mod_eq_of_lt (by omega)]
  have hfs : encFrameSize payload = tagSize + lengthSize + payload.length := by
    rw [encFrameSize, hpl, Nat.mod_eq_of_lt (by omega)]
    omega
  by_cases hlim : cfg.FrameLimit > 0 ∧ tagSize + lengthSize + payload.length > cfg.FrameLimit
  · rw [if_pos hlim]
    simp only [Encode]
    rw [if_pos (by rw [hfs]; exact hlim)]
  · rw [if_neg hlim]
    simp only [Encode]
    rw [if_neg (by rw [hfs]; exact hlim)]
    obtain ⟨hinv, hunread⟩ :=
      assembleFrame_unread cfg (encFrameSize payload) (encPayloadLength payload) payload
    have hread : ReadableBytes
        (assembleFrame cfg (encFrameSize payload) (encPayloadLength payload) payload) =
        tagSize + lengthSize + payload.length :=
      assembleFrame_readable cfg (encFrameSize payload) (encPayloadLength payload) payload
    rw [if_neg (by rw [hread, hfs]; simp)]
    have hrb := readBytes_spec
      (assembleFrame cfg (encFrameSize payload) (encPayloadLength payload) payload)
      (ReadableBytes
        (assembleFrame cfg (encFrameSize payload) (encPayloadLength payload) payload))
      hinv (le_of_eq rfl)
    rw [hrb]
    have hu : (unread
        (assembleFrame cfg (encFrameSize payload) (encPayloadLength payload) payload)).take
          (ReadableBytes
            (assembleFrame cfg (encFrameSize payload) (encPayloadLength payload) payload)) =
        unread (assembleFrame cfg (encFrameSize payload) (encPayloadLength payload) payload) := by
      rw [← unread_length _ hinv]
      exact List.take_length _
    rw [hu, hunread, hpl]
    rfl

theorem encFrameSize_of_fits (payload : List Nat)
    (hsize : payload.length + (tagSize + lengthSize) < 2 ^ 32) :
    encFrameSize payload = tagSize + lengthSize + payload.length := by
  rw [encFrameSize, encPayloadLength, Nat.mod_eq_of_lt (by omega), Nat.mod_eq_of_lt (by omega)]
  omega

/-- C5 (amended): for every byte-slice payload whose frame size
1 + 4 + len(payload) fits in a uint32, Encode computes
frameSize = 1 + 4 + len(payload), returns an EncodeError when
frameLimit > 0 and frameSize > frameLimit, and otherwise returns
exactly the tag byte followed by the payload length as a big-endian
32-bit value followed by the payload; an input that is not a byte slice
fails with an EncodeError.  (The size restriction is forced by the
counterexample, where the uint32 frame size wraps for a payload of
2^32 - 5 bytes with no frame limit configured.) -/
theorem C5_encode_frame_layout (cfg : TLVConfig) (payload : List Nat)
    (hsize : payload.length + (tagSize + lengthSize) < 2 ^ 32) :
    encFrameSize payload = tagSize + lengthSize + payload.length ∧
      Encode cfg (.bytes payload) =
        (if cfg.FrameLimit > 0 ∧ tagSize + lengthSize + payload.length > cfg.FrameLimit then
          .encodeError "frame size larger than limit"
        else .ok (tlvFrame cfg payload)) ∧
      Encode cfg .other = .encodeError "can not transform input to []byte" :=
  ⟨encFrameSize_of_fits payload hsize, encode_spec cfg payload hsize, rfl⟩

/-- Witness for C5: the specification example.  Encoding the 12-byte
payload "Hello World." under (tag 0xAA, frameLimit 4 MiB) yields
exactly [0xAA, 0x00, 0x00, 0x00, 0x0C] followed by the ASCII bytes. -/
theorem C5_encode_frame_layout_witness :
    ([72, 101, 108, 108, 111, 32, 87, 111, 114, 108, 100, 46] : List Nat).length +
        (tagSize + lengthSize) < 2 ^ 32 ∧
      (encFrameSize [72, 101, 108, 108, 111, 32, 87, 111, 114, 108, 100, 46] =
          tagSize + lengthSize +
            ([72, 101, 108, 108, 111, 32, 87, 111, 114, 108, 100, 46] : List Nat).length ∧
        Encode ⟨170, 4194304⟩ (.bytes [72, 101, 108, 108, 111, 32, 87, 111, 114, 108, 100, 46]) =
          (if (⟨170, 4194304⟩ : TLVConfig).FrameLimit > 0 ∧
              tagSize + lengthSize +
                  ([72, 101, 108, 108, 111, 32, 87, 111, 114, 108, 100, 46] : List Nat).length >
                (⟨170, 4194304⟩ : TLVConfig).FrameLimit then
            .encodeError "frame size larger than limit"
          else .ok (tlvFrame ⟨170, 4194304⟩ [72, 101, 108, 108, 111, 32, 87, 111, 114, 108, 100, 46])) ∧
        Encode ⟨170, 4194304⟩ .other = .encodeError "can not transform input to []byte") ∧
      Encode ⟨170, 4194304⟩ (.bytes [72, 101, 108, 108, 111, 32, 87, 111, 114, 108, 100, 46]) =
        .ok [170, 0, 0, 0, 12, 72, 101, 108, 108, 111, 32, 87, 111, 114, 108, 100, 46] :=
  ⟨by decide,
    C5_encode_frame_layout ⟨170, 4194304⟩ [72, 101, 108, 108, 111, 32, 87, 111, 114, 108, 100, 46]
      (by decide),
    by decide⟩

/-- C5 counterexample: for the byte slice of 2^32 - 5 zero bytes under
configuration (tag 0xAA, no frame limit) the claim predicts a
successful frame (the frame-limit check passes), but
uint32(len(payload)) + 4 + 1 wraps to 0, the defensive size check
fires, and Encode returns the EncodeError "ByteBuf issue" instead of
the frame bytes. -/
theorem C5_encode_counterexample :
    Encode ⟨170, 0⟩ (.bytes (List.replicate (2 ^ 32 - 5) 0)) =
        .encodeError "ByteBuf issue" ∧
      Encode ⟨170, 0⟩ (.bytes (List.replicate (2 ^ 32 - 5) 0)) ≠
        .ok (tlvFrame ⟨170, 0⟩ (List.replicate (2 ^ 32 - 5) 0)) := by
  have hlen : (List.replicate (2 ^ 32 - 5) (0 : Nat)).length = 2 ^ 32 - 5 :=
    List.length_replicate ..
  have hfs : encFrameSize (List.replicate (2 ^ 32 - 5) 0) = 0 := by
    rw [encFrameSize, encPayloadLength, hlen]
    simp only [lengthSize, tagSize]
    omega
  have hlim : ¬((⟨170, 0⟩ : TLVConfig).FrameLimit > 0 ∧
      encFrameSize (List.replicate (2 ^ 32 - 5) 0) > (⟨170, 0⟩ : TLVConfig).FrameLimit) := by
    intro h
    have h0 : (0 : Nat) > 0 := h.1
    omega
  have h1 : Encode ⟨170, 0⟩ (.bytes (List.replicate (2 ^ 32 - 5) 0)) =
      .encodeError "ByteBuf issue" := by
    simp only [Encode]
    rw [if_neg hlim]
    rw [if_pos ?hne]
    case hne =>
      rw [hfs, assembleFrame_readable, hlen]
      simp only [tagSize, lengthSize]
      omega
  refine ⟨h1, ?_⟩
  rw [h1]
  intro hc
  exact EncodeResult.noConfusion hc

/-- C9 (amended): for every byte-slice payload whose frame size
1 + 4 + len(payload) fits in a uint32 and which passes the frame-limit
check, the assembled buffer readable byte count equals the predicted
frame size, so the defensive "ByteBuf issue" branch is not taken and
Encode never returns that error.  (Payloads of 2^32 - 5 bytes or more
do reach the branch, see the counterexample.) -/
theorem C9_no_bytebuf_issue (cfg : TLVConfig) (payload : List Nat)
    (hsize : payload.length + (tagSize + lengthSize) < 2 ^ 32) :
    ReadableBytes
        (assembleFrame cfg (encFrameSize payload) (encPayloadLength payload) payload)
        = encFrameSize payload ∧
      Encode cfg (.bytes payload) ≠ .encodeError "ByteBuf issue" := by
  have hfs := encFrameSize_of_fits payload hsize
  refine ⟨by rw [assembleFrame_readable, hfs], ?_⟩
  rw [encode_spec cfg payload hsize]
  split <;> simp

/-- Witness for C9: the 3-byte payload [1, 2, 3] assembles to exactly
the predicted 8 readable bytes and encodes without the "ByteBuf issue"
error. -/
theorem C9_no_bytebuf_issue_witness :
    ([1, 2, 3] : List Nat).length + (tagSize + lengthSize) < 2 ^ 32 ∧
      (ReadableBytes
          (assembleFrame ⟨170, 4194304⟩ (encFrameSize [1, 2, 3])
            (encPayloadLength [1, 2, 3]) [1, 2, 3])
          = encFrameSize [1, 2, 3] ∧
        Encode ⟨170, 4194304⟩ (.bytes [1, 2, 3]) ≠ .encodeError "ByteBuf issue") :=
  ⟨by decide, C9_no_bytebuf_issue ⟨170, 4194304⟩ [1, 2, 3] (by decide)⟩

/-- C9 counterexample: the byte slice of 2^32 - 4 bytes of value 1
passes the frame-limit check (no limit configured), yet the assembled
buffer holds 2^32 + 1 readable bytes while the wrapped uint32 frame
size predicts 1, so the defensive branch is reachable and Encode
returns the "ByteBuf issue" error. -/
theorem C9_bytebuf_issue_reachable :
    ¬((⟨0, 0⟩ : TLVConfig).FrameLimit > 0 ∧
        encFrameSize (List.replicate (2 ^ 32 - 4) 1) > (⟨0, 0⟩ : TLVConfig).FrameLimit) ∧
      ReadableBytes
          (assembleFrame ⟨0, 0⟩ (encFrameSize (List.replicate (2 ^ 32 - 4) 1))
            (encPayloadLength (List.replicate (2 ^ 32 - 4) 1)) (List.replicate (2 ^ 32 - 4) 1))
        ≠ encFrameSize (List.replicate (2 ^ 32 - 4) 1) ∧
      Encode ⟨0, 0⟩ (.bytes (List.replicate (2 ^ 32 - 4) 1)) =
        .encodeError "ByteBuf issue" := by
  have hlen : (List.replicate (2 ^ 32 - 4) (1 : Nat)).length = 2 ^ 32 - 4 :=
    List.length_replicate ..
  have hfs : encFrameSize (List.replicate (2 ^ 32 - 4) 1) = 1 := by
    rw [encFrameSize, encPayloadLength, hlen]
    simp only [lengthSize, tagSize]
    omega
  have hne : ReadableBytes
      (assembleFrame ⟨0, 0⟩ (encFrameSize (List.replicate (2 ^ 32 - 4) 1))
        (encPayloadLength (List.replicate (2 ^ 32 - 4) 1)) (List.replicate (2 ^ 32 - 4) 1))
      ≠ encFrameSize (List.replicate (2 ^ 32 - 4) 1) := by
    rw [hfs, assembleFrame_readable, hlen]
    simp only [tagSize, lengthSize]
    omega
  have hlim : ¬((⟨0, 0⟩ : TLVConfig).FrameLimit > 0 ∧
      encFrameSize (List.replicate (2 ^ 32 - 4) 1) > (⟨0, 0⟩ : TLVConfig).FrameLimit) := by
    intro h
    have h0 : (0 : Nat) > 0 := h.1
    omega
  refine ⟨hlim, hne, ?_⟩
  simp only [Encode]
  rw [if_neg hlim]
  rw [if_pos (fun h => hne h.symm)]

/-! ## Duplex pipeline, from src/net/tcp/peer/pipeline.go -/

def stateNew : Nat := 0

def stateReady : Nat := 1

def stateRunning : Nat := 2

def stateShutdown : Nat := 3

/-- Model of `peer.OutboundEntity`: the outbound message (nil = none)
and the registered callback.  Callbacks are identified by a number so
that invocations can be counted; a nil callback is none. -/
structure OutboundEntity where
  Data : Option Nat
  Callback : Option Nat
deriving Repr, DecidableEq

/-- Model of the Go channel `chan OutboundEntity`: nil (never
allocated), open with a queue of buffered entities, or closed.  Sending
on a closed channel panics; the model reports that as a flag. -/
inductive GoChan where
  | nilChan
  | openChan (queue : List OutboundEntity)
  | closedChan (queue : List OutboundEntity)
deriving Repr, DecidableEq

/-- State of a plain signalling channel (`chan interface` or
`chan uint8`). -/
inductive ChanState where
  | nilC
  | openC
  | closedC
deriving Repr, DecidableEq

/-- Model of `peer.duplexPipeline`: the lifecycle state byte, presence
flags for the four dependencies checked by Init (conn, decoder,
encoder, handler), the channels allocated by Init and closed by Stop,
and the bookkeeping set up by Init/Start/Stop. -/
structure DuplexPipeline where
  state : Nat
  connPresent : Bool
  decoderPresent : Bool
  encoderPresent : Bool
  handlerPresent : Bool
  inboundDataC : ChanState
  outboundDataC : GoChan
  inboundHandlerStopC : ChanState
  outboundHandlerStopC : ChanState
  channelCreated : Bool
  workersStarted : Bool
  stateWaitGroup : Nat
deriving Repr, DecidableEq

/-- Errors returned by `Init`. -/
inductive PipeErr where
  | nilConn
  | nilDecoder
  | nilEncoder
  | nilHandler
deriving Repr, DecidableEq

/-- A freshly constructed pipeline, as built by `InitPipeline` before
calling `Init`: state `stateNew` (zero value) and no channels. -/
def newDuplexPipeline (connPresent decoderPresent encoderPresent handlerPresent : Bool) :
    DuplexPipeline :=
  { state := stateNew
    connPresent := connPresent
    decoderPresent := decoderPresent
    encoderPresent := encoderPresent
    handlerPresent := handlerPresent
    inboundDataC := .nilC
    outboundDataC := .nilChan
    inboundHandlerStopC := .nilC
    outboundHandlerStopC := .nilC
    channelCreated := false
    workersStarted := false
    stateWaitGroup := 0 }

/-- Model of `duplexPipeline.Init`: under the state mutex, when in
`stateNew` validate the four dependencies (returning the matching error
and leaving the state untouched on a nil one), then allocate the data
and stop channels, create the bound Channel, and latch `stateReady`.
In any other state it does nothing and returns no error. -/
def Init (cp : DuplexPipeline) : DuplexPipeline × Option PipeErr :=
  if cp.state = stateNew then
    if !cp.connPresent then (cp, some .nilConn)
    else if !cp.decoderPresent then (cp, some .nilDecoder)
    else if !cp.encoderPresent then (cp, some .nilEncoder)
    else if !cp.handlerPresent then (cp, some .nilHandler)
    else
      ({ cp with
          inboundDataC := .openC
          outboundDataC := .openChan []
          inboundHandlerStopC := .openC
          outboundHandlerStopC := .openC
          channelCreated := true
          state := stateReady }, none)
  else (cp, none)

/-- Model of `duplexPipeline.Start`: only from `stateReady`; starts the
three worker goroutines, latches `stateRunning` and adds to the state
wait group.  Always returns a nil error. -/
def Start (cp : DuplexPipeline) : DuplexPipeline :=
  if cp.state ≠ stateReady then cp
  else
    { cp with
        workersStarted := true
        state := stateRunning
        stateWaitGroup := cp.stateWaitGroup + 1 }

/-- Model of `duplexPipeline.Stop`: only from `stateRunning`; closes
the stop channels, joins the workers, closes the connection, closes the
data channels, latches `stateShutdown`, releases the wait group and
drops the worker handles. -/
def Stop (cp : DuplexPipeline) : DuplexPipeline :=
  if cp.state ≠ stateRunning then cp
  else
    { cp with
        inboundHandlerStopC := .closedC
        outboundHandlerStopC := .closedC
        inboundDataC := .closedC
        outboundDataC :=
          match cp.outboundDataC with
          | .openChan q => .closedChan q
          | other => other
        state := stateShutdown
        stateWaitGroup := cp.stateWaitGroup - 1
        workersStarted := false }

/-- Model of `duplexPipeline.SendFuture`.  Returns the new pipeline
state, the list of synchronous callback invocations performed (callback
id together with the error value passed), and whether the call panicked
(send on a closed channel).  Mirrors the source: a nil message returns
immediately; a non-running state invokes the callback synchronously
with the "pipeline closed" error; then, with no early return, the
entity is still pushed to `outboundDataC` whenever that channel is
non-nil. -/
def SendFuture (cp : DuplexPipeline) (msg : Option Nat) (callback : Option Nat) :
    DuplexPipeline × List (Nat × Option String) × Bool :=
  if msg = none then (cp, [], false)
  else
    let calls : List (Nat × Option String) :=
      if cp.state ≠ stateRunning then
        match callback with
        | some cb => [(cb, some "pipeline closed")]
        | none => []
      else []
    match cp.outboundDataC with
    | .nilChan => (cp, calls, false)
    | .openChan q =>
      ({ cp with outboundDataC := .openChan (q ++ [⟨msg, callback⟩]) }, calls, false)
    | .closedChan _ => (cp, calls, true)

/-- Model of one iteration of `duplexPipeline.handleOutbound` on one
entity taken from the outbound queue, parameterized by the encode
result and by the error of the connection write: on an encode error the
callback (when non-nil) is invoked once with it; otherwise the frame is
written and the callback (when non-nil) is invoked once with the write
result. -/
def handleOutboundEntity (encodeResult : EncodeResult) (writeErr : Option String)
    (e : OutboundEntity) : List (Nat × Option String) :=
  match encodeResult with
  | .encodeError msg =>
    match e.Callback with
    | some cb => [(cb, some msg)]
    | none => []
  | .ok _ =>
    match e.Callback with
    | some cb => [(cb, writeErr)]
    | none => []

/-- Length of the outbound queue (0 for a nil channel). -/
def outboundQueueLength (cp : DuplexPipeline) : Nat :=
  match cp.outboundDataC with
  | .nilChan => 0
  | .openChan q => q.length
  | .closedChan q => q.length

/-- Model of the blocking `duplexPipeline.Send`: it registers a
callback that forwards the error to a rendezvous channel and then
blocks receiving from it.  The receive can only ever complete if the
callback is invoked, i.e. if `SendFuture` either invoked it
synchronously or enqueued the entity carrying it for the outbound
worker; `sendDelivers` is true exactly in that case, so Send blocks
forever when it is false. -/
def sendDelivers (cp : DuplexPipeline) (msg : Option Nat) : Bool :=
  let r := SendFuture cp msg (some 0)
  !r.2.1.isEmpty || decide (outboundQueueLength r.1 ≠ outboundQueueLength cp)

/-- Evaluation of the C3 failing input.  SendFuture is missing a
return after the synchronous error callback: on a pipeline in the Ready
state (after Init, before Start) SendFuture invokes the callback
synchronously with the "pipeline closed" error AND still pushes the
entity onto the outbound queue, where the outbound worker later invokes
the same callback a second time (shown by handleOutboundEntity); and on
a pipeline in the Shutdown state the fall-through push hits a closed
channel, which panics in Go. -/
theorem C3_sendFuture_missing_return :
    (Init (newDuplexPipeline true true true true)).1.state = stateReady ∧
      (SendFuture (Init (newDuplexPipeline true true true true)).1 (some 5) (some 7)).2.1
        = [(7, some "pipeline closed")] ∧
      (SendFuture (Init (newDuplexPipeline true true true true)).1
          (some 5) (some 7)).1.outboundDataC
        = .openChan [⟨some 5, some 7⟩] ∧
      handleOutboundEntity (.ok [0]) none ⟨some 5, some 7⟩ = [(7, none)] ∧
      (SendFuture (Stop (Start (Init (newDuplexPipeline true true true true)).1))
          (some 5) (some 7)).2.2 = true := by
  decide

/-- C10: for every pipeline state and every callback, SendFuture with a
nil message returns immediately with the pipeline unchanged (no entry
enqueued), no callback invocation and no panic; consequently the
synchronous Send with a nil message registers a callback that nobody
will ever invoke, never receives a value on its rendezvous channel, and
blocks forever. -/
theorem C10_sendFuture_nil_noop (cp : DuplexPipeline) (callback : Option Nat) :
    SendFuture cp none callback = (cp, [], false) ∧ sendDelivers cp none = false := by
  constructor
  · simp [SendFuture]
  · simp [sendDelivers, SendFuture]

/-- Witness for C10: on a fresh pipeline, SendFuture with a nil message
and callback 3 is a no-op and the matching Send would block forever. -/
theorem C10_sendFuture_nil_noop_witness :
    SendFuture (newDuplexPipeline true true true true) none (some 3)
        = (newDuplexPipeline true true true true, [], false) ∧
      sendDelivers (newDuplexPipeline true true true true) none = false :=
  C10_sendFuture_nil_noop (newDuplexPipeline true true true true) (some 3)

/-- Lifecycle calls of the pipeline state machine. -/
inductive LifecycleOp where
  | opInit
  | opStart
  | opStop
deriving Repr, DecidableEq

/-- One lifecycle call. -/
def stepOp (cp : DuplexPipeline) : LifecycleOp → DuplexPipeline
  | .opInit => (Init cp).1
  | .opStart => Start cp
  | .opStop => Stop cp

/-- The sequence of states visited while executing a sequence of
lifecycle calls. -/
def stateTrace (cp : DuplexPipeline) : List LifecycleOp → List Nat
  | [] => [cp.state]
  | op :: rest => cp.state :: stateTrace (stepOp cp op) rest

/-- Number of times a state trace walks a given edge. -/
def countEdge : List Nat → Nat × Nat → Nat
  | x :: y :: rest, e =>
    (if x ≠ y ∧ x = e.1 ∧ y = e.2 then 1 else 0) + countEdge (y :: rest) e
  | _, _ => 0

theorem stepOp_cases (cp : DuplexPipeline) (op : LifecycleOp) :
    (stepOp cp op).state = cp.state ∨
      (op = .opInit ∧ cp.state = stateNew ∧ (stepOp cp op).state = stateReady) ∨
      (op = .opStart ∧ cp.state = stateReady ∧ (stepOp cp op).state = stateRunning) ∨
      (op = .opStop ∧ cp.state = stateRunning ∧ (stepOp cp op).state = stateShutdown) := by
  cases op <;> simp only [stepOp, Init, Start, Stop] <;> split_ifs <;> simp_all

theorem stepOp_mono (cp : DuplexPipeline) (op : LifecycleOp) :
    cp.state ≤ (stepOp cp op).state := by
  rcases stepOp_cases cp op with h | ⟨_, h1, h2⟩ | ⟨_, h1, h2⟩ | ⟨_, h1, h2⟩
  · omega
  all_goals rw [h1, h2]
  all_goals decide

theorem stateTrace_cons (cp : DuplexPipeline) (ops : List LifecycleOp) :
    ∃ t, stateTrace cp ops = cp.state :: t := by
  cases ops <;> exact ⟨_, rfl⟩

theorem countEdge_bound (a b : Nat) (hab : a < b) :
    ∀ (ops : List LifecycleOp) (cp : DuplexPipeline),
      countEdge (stateTrace cp ops) (a, b) ≤ if cp.state ≤ a then 1 else 0 := by
  intro ops
  induction ops with
  | nil =>
    intro cp
    exact Nat.zero_le _
  | cons op rest ih =>
    intro cp
    obtain ⟨t, ht⟩ := stateTrace_cons (stepOp cp op) rest
    have htr : stateTrace cp (op :: rest) = cp.state :: stateTrace (stepOp cp op) rest := rfl
    rw [htr, ht]
    simp only [countEdge]
    rw [← ht]
    have hih := ih (stepOp cp op)
    have hmono := stepOp_mono cp op
    by_cases hcond : cp.state ≠ (stepOp cp op).state ∧ cp.state = a ∧ (stepOp cp op).state = b
    · rw [if_pos hcond]
      obtain ⟨hne, hxa, hyb⟩ := hcond
      rw [if_pos (by omega : cp.state ≤ a)]
      rw [if_neg (by omega : ¬((stepOp cp op).state ≤ a))] at hih
      omega
    · rw [if_neg hcond]
      have hle : (if (stepOp cp op).state ≤ a then 1 else 0) ≤
          (if cp.state ≤ a then (1 : Nat) else 0) := by
        by_cases h1 : (stepOp cp op).state ≤ a
        · rw [if_pos h1, if_pos (by omega)]
        · rw [if_neg h1]
          exact Nat.zero_le _
      omega

/-- C6: the pipeline changes state only along the order
New to Ready to Running to Shutdown: Init transitions only from New to
Ready, Start only from Ready to Running, Stop only from Running to
Shutdown; calling Init, Start or Stop in any other state is an
idempotent no-op leaving the pipeline unchanged; and along every
sequence of lifecycle calls each edge is walked at most once. -/
theorem C6_pipeline_state_machine :
    (∀ (cp : DuplexPipeline) (op : LifecycleOp),
        (stepOp cp op).state = cp.state ∨
          (op = .opInit ∧ cp.state = stateNew ∧ (stepOp cp op).state = stateReady) ∨
          (op = .opStart ∧ cp.state = stateReady ∧ (stepOp cp op).state = stateRunning) ∨
          (op = .opStop ∧ cp.state = stateRunning ∧ (stepOp cp op).state = stateShutdown)) ∧
      (∀ cp : DuplexPipeline, cp.state ≠ stateNew → Init cp = (cp, none)) ∧
      (∀ cp : DuplexPipeline, cp.state ≠ stateReady → Start cp = cp) ∧
      (∀ cp : DuplexPipeline, cp.state ≠ stateRunning → Stop cp = cp) ∧
      (∀ (cp : DuplexPipeline) (ops : List LifecycleOp) (a b : Nat), a < b →
        countEdge (stateTrace cp ops) (a, b) ≤ 1) := by
  refine ⟨stepOp_cases, ?_, ?_, ?_, ?_⟩
  · intro cp h
    simp [Init, h]
  · intro cp h
    simp [Start, h]
  · intro cp h
    simp [Stop, h]
  · intro cp ops a b hab
    refine le_trans (countEdge_bound a b hab ops cp) ?_
    split_ifs <;> omega

/-- Witness for C6: on a fresh pipeline, Start before Init is a no-op,
and a call sequence with repeated Init/Stop walks the New-to-Ready edge
exactly once. -/
theorem C6_pipeline_state_machine_witness :
    Start (newDuplexPipeline true true true true) = newDuplexPipeline true true true true ∧
      countEdge
          (stateTrace (newDuplexPipeline true true true true)
            [.opInit, .opInit, .opStart, .opStop, .opStop, .opInit])
          (stateNew, stateReady) ≤ 1 :=
  ⟨C6_pipeline_state_machine.2.2.1 (newDuplexPipeline true true true true) (by decide),
    C6_pipeline_state_machine.2.2.2.2 (newDuplexPipeline true true true true)
      [.opInit, .opInit, .opStart, .opStop, .opStop, .opInit] stateNew stateReady (by decide)⟩

/-! ## Acknowledgement correlator, from src/net/tcp/peer/ack.go -/

/-- Model of `ackRespEntity`: an opaque data value and an error, both
possibly nil. -/
structure AckRespEntity where
  data : Option Nat
  err : Option String
deriving Repr, DecidableEq

/-- Model of `SafeAckManager`: the key to rendezvous-channel map, each
channel a FIFO buffer of capacity 2.  Keys are opaque (a nil key is
passed as none to the operations). -/
structure SafeAckManager where
  ackRespChanMap : List (Nat × List AckRespEntity)
deriving Repr, DecidableEq

/-- Model of `sync.Map.Load`. -/
def ackLookup : List (Nat × List AckRespEntity) → Nat → Option (List AckRespEntity)
  | [], _ => none
  | kv :: rest, k => if kv.1 = k then some kv.2 else ackLookup rest k

/-- Model of `sync.Map.Store` on a key already present. -/
def ackStore (l : List (Nat × List AckRespEntity)) (k : Nat) (q : List AckRespEntity) :
    List (Nat × List AckRespEntity) :=
  l.map fun kv => if kv.1 = k then (k, q) else kv

/-- Model of `sync.Map.Delete`. -/
def ackDelete (l : List (Nat × List AckRespEntity)) (k : Nat) :
    List (Nat × List AckRespEntity) :=
  l.filter fun kv => kv.1 ≠ k

/-- Model of `SafeAckManager.InitAck`: a nil key is ignored; otherwise
a fresh rendezvous channel (capacity 2) is registered unless one
already exists. -/
def InitAck (m : SafeAckManager) (key : Option Nat) : SafeAckManager :=
  match key with
  | none => m
  | some k =>
    match ackLookup m.ackRespChanMap k with
    | some _ => m
    | none => ⟨m.ackRespChanMap ++ [(k, [])]⟩

/-- Model of `SafeAckManager.CommitAck`: a nil key or an unknown key is
silently dropped; otherwise the entity is sent to the buffered channel.
The send blocks when the buffer already holds 2 entities; a blocked
call is modelled as none. -/
def CommitAck (m : SafeAckManager) (key : Option Nat) (data : Option Nat) :
    Option SafeAckManager :=
  match key with
  | none => some m
  | some k =>
    match ackLookup m.ackRespChanMap k with
    | none => some m
    | some q =>
      if q.length < 2 then
        some ⟨ackStore m.ackRespChanMap k (q ++ [⟨data, none⟩])⟩
      else none

/-- Model of `SafeAckManager.WaitAck` with a non-positive timeout (no
timer is armed): a nil or unknown key returns (nil, nil) immediately;
otherwise the caller blocks on the rendezvous channel, which is
modelled as none when no entity is buffered; when an entity is
available it is received, the deferred Delete removes the slot, and the
data and error are returned. -/
def WaitAckUnbounded (m : SafeAckManager) (key : Option Nat) :
    Option ((Option Nat × Option String) × SafeAckManager) :=
  match key with
  | none => some ((none, none), m)
  | some k =>
    match ackLookup m.ackRespChanMap k with
    | none => some ((none, none), m)
    | some q =>
      match q with
      | [] => none
      | e :: _ => some ((e.data, e.err), ⟨ackDelete m.ackRespChanMap k⟩)

theorem ackLookup_append_self (l : List (Nat × List AckRespEntity)) (k : Nat)
    (q : List AckRespEntity) (h : ackLookup l k = none) :
    ackLookup (l ++ [(k, q)]) k = some q := by
  induction l with
  | nil => simp [ackLookup]
  | cons kv rest ih =>
    rw [ackLookup] at h
    by_cases hk : kv.1 = k
    · rw [if_pos hk] at h
      exact absurd h (by simp)
    · rw [if_neg hk] at h
      rw [List.cons_append, ackLookup, if_neg hk]
      exact ih h

theorem ackLookup_store_self (l : List (Nat × List AckRespEntity)) (k : Nat)
    (q0 q : List AckRespEntity) (h : ackLookup l k = some q0) :
    ackLookup (ackStore l k q) k = some q := by
  induction l with
  | nil => simp [ackLookup] at h
  | cons kv rest ih =>
    by_cases hk : kv.1 = k
    · simp [ackStore, ackLookup, hk]
    · rw [ackLookup, if_neg hk] at h
      simp only [ackStore, List.map_cons, if_neg hk]
      rw [ackLookup, if_neg hk]
      exact ih h

theorem ackLookup_delete_self (l : List (Nat × List AckRespEntity)) (k : Nat) :
    ackLookup (ackDelete l k) k = none := by
  induction l with
  | nil => simp [ackDelete, ackLookup]
  | cons kv rest ih =>
    by_cases hk : kv.1 = k
    · simpa [ackDelete, hk] using ih
    · simpa [ackDelete, hk, ackLookup] using ih

/-- C7: for every prior manager state in which key k has no slot, the
sequence InitAck(k), CommitAck(k, v), WaitAck(k, unbounded) succeeds:
the commit is buffered by the capacity-2 rendezvous channel created by
InitAck, the waiter returns (v, nil) without blocking, and the slot is
removed when the waiter returns. -/
theorem C7_ack_init_commit_wait (m : SafeAckManager) (k v : Nat)
    (habsent : ackLookup m.ackRespChanMap k = none) :
    ∃ m2, CommitAck (InitAck m (some k)) (some k) (some v) = some m2 ∧
      ∃ m3, WaitAckUnbounded m2 (some k) = some ((some v, none), m3) ∧
        ackLookup m3.ackRespChanMap k = none := by
  have h1 : InitAck m (some k) = ⟨m.ackRespChanMap ++ [(k, [])]⟩ := by
    rw [InitAck, habsent]
  have h2 : ackLookup (m.ackRespChanMap ++ [(k, [])]) k = some [] :=
    ackLookup_append_self m.ackRespChanMap k [] habsent
  refine ⟨⟨ackStore (m.ackRespChanMap ++ [(k, [])]) k [⟨some v, none⟩]⟩, ?_, ?_⟩
  · rw [h1, CommitAck, h2]
    rfl
  · have h3 : ackLookup (ackStore (m.ackRespChanMap ++ [(k, [])]) k [⟨some v, none⟩]) k
        = some [⟨some v, none⟩] :=
      ackLookup_store_self (m.ackRespChanMap ++ [(k, [])]) k [] [⟨some v, none⟩] h2
    refine ⟨⟨ackDelete (ackStore (m.ackRespChanMap ++ [(k, [])]) k [⟨some v, none⟩]) k⟩,
      ?_, ackLookup_delete_self _ k⟩
    rw [WaitAckUnbounded, h3]

/-- Witness for C7: on the empty manager with key 7 and value 42 the
sequence returns (42, nil) and removes the slot. -/
theorem C7_ack_init_commit_wait_witness :
    ackLookup (SafeAckManager.mk []).ackRespChanMap 7 = none ∧
      ∃ m2, CommitAck (InitAck ⟨[]⟩ (some 7)) (some 7) (some 42) = some m2 ∧
        ∃ m3, WaitAckUnbounded m2 (some 7) = some ((some 42, none), m3) ∧
          ackLookup m3.ackRespChanMap 7 = none :=
  ⟨by decide, C7_ack_init_commit_wait ⟨[]⟩ 7 42 (by decide)⟩

/-! ## Apollo typed-message decoder, from the apollo codec source -/

/-- Big-endian 2-byte encoding of a uint16 type code. -/
def natToBe16 (n : Nat) : List Nat :=
  [n / 2 ^ 8 % 256, n % 256]

/-- Value of 2 bytes interpreted big-endian, as read by
`binary.Read(r, binary.BigEndian, &u16)`. -/
def be16ToNat (b : List Nat) : Nat :=
  b.getD 0 0 * 2 ^ 8 + b.getD 1 0

theorem natToBe16_length (n : Nat) : (natToBe16 n).length = 2 := rfl

theorem be16_roundtrip (n : Nat) (h : n < 2 ^ 16) : be16ToNat (natToBe16 n) = n := by
  simp [natToBe16, be16ToNat]
  omega

/-- Model of `ApolloConfig`: the embedded TLV configuration and the
registered entity constructors; for the decode path only whether a
type code has a registered constructor matters, so the map is
abstracted to its domain. -/
structure ApolloConfig where
  tlvConfig : TLVConfig
  entityConstructors : Nat → Bool

/-- Model of `ApolloConfig.createEntity`: true when a constructor is
registered for the type code (the source then instantiates a fresh
entity), false when the lookup yields nil. -/
def createEntity (c : ApolloConfig) (typeCode : Nat) : Bool :=
  c.entityConstructors typeCode

/-- Result of one `ApolloFrameDecoder.Decode` call: `(nil, nil)`, a
decoded entity (identified by its type code and the serialized bytes
that were deserialized into it), or a `DecodeError`. -/
inductive ApolloOut where
  | nothingOut
  | entityOut (typeCode : Nat) (serialized : List Nat)
  | failOut (cause : String)
deriving Repr, DecidableEq

/-- State of `ApolloFrameDecoder`: the configuration and the lazily
created inner TLV decoder (nil until first use). -/
structure ApolloFrameDecoder where
  Config : ApolloConfig
  tlvDecoder : Option TLVFrameDecoder

/-- Model of `ApolloFrameDecoder.initTLVDecoder`. -/
def initTLVDecoder (d : ApolloFrameDecoder) : TLVFrameDecoder :=
  match d.tlvDecoder with
  | some t => t
  | none => newTLVFrameDecoder d.Config.tlvConfig

/-- Model of `ApolloFrameDecoder.Decode`, parameterized by the
MessagePack deserializer (which returns an error or succeeds): an empty
buffer yields (nil, nil); otherwise the inner TLV decoder runs; on a
full TLV payload the first 2 bytes are the big-endian type code and the
rest the serialized body; an unregistered type code yields (nil, nil)
without error. -/
def ApolloDecode (unmarshal : Nat → List Nat → Option String)
    (d : ApolloFrameDecoder) (bin : ByteBuf) : ApolloFrameDecoder × ByteBuf × ApolloOut :=
  if ReadableBytes bin = 0 then (d, bin, .nothingOut)
  else
    let t0 := initTLVDecoder d
    let r := Decode t0 bin
    let d1 : ApolloFrameDecoder := { d with tlvDecoder := some r.1 }
    match r.2.2 with
    | .needMore => (d1, r.2.1, .nothingOut)
    | .fail cause => (d1, r.2.1, .failOut cause)
    | .emit payload =>
      let pbuf := WriteBytes (newElasticUnsafeByteBuf (payload.length : Int)) payload
      if ReadableBytes pbuf < 2 then (d1, r.2.1, .failOut "illegal payload")
      else
        let rr := bufRead pbuf 2
        let typeCode := be16ToNat rr.1
        let serializedBytes := (ReadBytes rr.2.1 (ReadableBytes rr.2.1 : Int)).1
        if createEntity d1.Config typeCode then
          match unmarshal typeCode serializedBytes with
          | some err => (d1, r.2.1, .failOut err)
          | none => (d1, r.2.1, .entityOut typeCode serializedBytes)
        else (d1, r.2.1, .nothingOut)

/-- A fresh TLV decoder consumes a single complete frame in one call,
emitting exactly the payload and leaving the queue empty. -/
theorem decodeQ_whole_frame (cfg : TLVConfig) (p : List Nat) (hvp : validPayload cfg p) :
    (decodeQ (newTLVFrameDecoder cfg) (tlvFrame cfg p)).2.2 = .emit p ∧
      (decodeQ (newTLVFrameDecoder cfg) (tlvFrame cfg p)).2.1 = [] := by
  have hstep := decodeQ_step cfg (newTLVFrameDecoder cfg) (tlvFrame cfg p) [] [p]
    (by intro x hx; rw [List.mem_singleton] at hx; rw [hx]; exact hvp)
    (stateOK_new cfg)
    (by
      rw [repState_new, List.nil_append, List.append_nil]
      simp [streamBytes])
  rcases hstep with ⟨ho1, ho2, ho3, ho4⟩ | ⟨p2, rest2, hrem, ho1, hoT, hoL, hoC, ho5⟩
  · exfalso
    have hc := ho4 p [] rfl
    have hlen := congrArg List.length ho3
    rw [streamBytes_length_cons] at hlen
    simp only [List.length_append, List.append_nil, streamBytes_nil, List.length_nil] at hlen
    omega
  · injection hrem with hp2 hrest2
    subst hp2
    subst hrest2
    rw [List.append_nil, streamBytes_nil] at ho5
    exact ⟨ho1, ho5⟩

/-- C8: for every well-formed TLV frame whose VALUE begins with a
2-byte big-endian type code that has no registered constructor in the
ApolloConfig, ApolloFrameDecoder.Decode consumes the frame and returns
no message and no error (the Go result pair is (nil, nil)): an unknown
type code is a benign skip, whatever the deserializer would do. -/
theorem C8_unknown_type_code_skipped
    (unmarshal : Nat → List Nat → Option String) (cfg : ApolloConfig)
    (tc : Nat) (body : List Nat) (bin : ByteBuf)
    (hreg : cfg.entityConstructors tc = false)
    (htc : tc < 2 ^ 16)
    (hvp : validPayload cfg.tlvConfig (natToBe16 tc ++ body))
    (hinv : bufInv bin)
    (hun : unread bin = tlvFrame cfg.tlvConfig (natToBe16 tc ++ body)) :
    (ApolloDecode unmarshal ⟨cfg, none⟩ bin).2.2 = .nothingOut ∧
      unread (ApolloDecode unmarshal ⟨cfg, none⟩ bin).2.1 = [] := by
  have hne0 : ¬(ReadableBytes bin = 0) := by
    have hl := unread_length bin hinv
    rw [hun] at hl
    intro h0
    rw [h0] at hl
    simp [tlvFrame] at hl
  have hinit : initTLVDecoder ⟨cfg, none⟩ = newTLVFrameDecoder cfg.tlvConfig := rfl
  have habs := decode_abs (newTLVFrameDecoder cfg.tlvConfig) bin hinv
  rw [hun] at habs
  obtain ⟨ha1, ha2, ha3, ha4⟩ := habs
  obtain ⟨hq1, hq2⟩ := decodeQ_whole_frame cfg.tlvConfig (natToBe16 tc ++ body) hvp
  have hout : (Decode (newTLVFrameDecoder cfg.tlvConfig) bin).2.2
      = .emit (natToBe16 tc ++ body) := by rw [ha3, hq1]
  have hq0 : unread (Decode (newTLVFrameDecoder cfg.tlvConfig) bin).2.1 = [] := by
    rw [ha2, hq2]
  obtain ⟨hw1, hw2⟩ :=
    writeBytes_spec
      (newElasticUnsafeByteBuf (((natToBe16 tc ++ body).length : Nat) : Int))
      (natToBe16 tc ++ body) (bufInv_new _)
  rw [unread_new, List.nil_append] at hw2
  have hplen : 2 ≤ (natToBe16 tc ++ body).length := by
    rw [List.length_append, natToBe16_length]
    omega
  have hrdp : ReadableBytes
      (WriteBytes (newElasticUnsafeByteBuf (((natToBe16 tc ++ body).length : Nat) : Int))
        (natToBe16 tc ++ body)) = (natToBe16 tc ++ body).length := by
    rw [← unread_length _ hw1, hw2]
  have hcrd : calcReadableBytes
      (WriteBytes (newElasticUnsafeByteBuf (((natToBe16 tc ++ body).length : Nat) : Int))
        (natToBe16 tc ++ body)) = (natToBe16 tc ++ body).length := hrdp
  have hrs : (if 2 < calcReadableBytes
      (WriteBytes (newElasticUnsafeByteBuf (((natToBe16 tc ++ body).length : Nat) : Int))
        (natToBe16 tc ++ body)) then 2 else calcReadableBytes
      (WriteBytes (newElasticUnsafeByteBuf (((natToBe16 tc ++ body).length : Nat) : Int))
        (natToBe16 tc ++ body))) = 2 := by
    rw [hcrd]
    by_cases h2 : 2 < (natToBe16 tc ++ body).length
    · rw [if_pos h2]
    · rw [if_neg h2]
      omega
  have hspec := readBytes_spec
    (WriteBytes (newElasticUnsafeByteBuf (((natToBe16 tc ++ body).length : Nat) : Int))
      (natToBe16 tc ++ body)) 2 hw1
    (by rw [hcrd]; omega)
  have htk : (unread
      (WriteBytes (newElasticUnsafeByteBuf (((natToBe16 tc ++ body).length : Nat) : Int))
        (natToBe16 tc ++ body))).take 2 = natToBe16 tc := by
    rw [hw2]
    have h := List.take_left (natToBe16 tc) body
    rw [natToBe16_length] at h
    exact h
  have htc2 : be16ToNat ((unread
      (WriteBytes (newElasticUnsafeByteBuf (((natToBe16 tc ++ body).length : Nat) : Int))
        (natToBe16 tc ++ body))).take 2) = tc := by
    rw [htk]
    exact be16_roundtrip tc htc
  simp only [ApolloDecode, if_neg hne0, hinit, hout, hq0]
  rw [if_neg (by rw [hrdp]; omega)]
  simp only [bufRead, hrs]
  rw [if_neg (by omega : ¬(2 = 0))]
  simp only [hspec, htc2]
  rw [if_neg (by simp [createEntity, hreg])]
  exact ⟨rfl, hq0⟩

/-- Witness for C8: a complete frame with type code 1 and empty body,
under a configuration with no registered constructors, decodes to
(nil, nil) and consumes the whole frame. -/
theorem C8_unknown_type_code_skipped_witness :
    ((⟨⟨170, 0⟩, fun _ => false⟩ : ApolloConfig).entityConstructors 1 = false) ∧
      ((ApolloDecode (fun _ _ => none) ⟨⟨⟨170, 0⟩, fun _ => false⟩, none⟩
            (WriteBytes (newElasticUnsafeByteBuf 0)
              (tlvFrame ⟨170, 0⟩ (natToBe16 1 ++ [])))).2.2 = .nothingOut ∧
        unread (ApolloDecode (fun _ _ => none) ⟨⟨⟨170, 0⟩, fun _ => false⟩, none⟩
            (WriteBytes (newElasticUnsafeByteBuf 0)
              (tlvFrame ⟨170, 0⟩ (natToBe16 1 ++ [])))).2.1 = []) :=
  ⟨rfl,
    C8_unknown_type_code_skipped (fun _ _ => none) ⟨⟨170, 0⟩, fun _ => false⟩ 1 []
      (WriteBytes (newElasticUnsafeByteBuf 0) (tlvFrame ⟨170, 0⟩ (natToBe16 1 ++ [])))
      rfl (by decide) (by decide) (by decide) (by decide)⟩

end Matcha
